import Mathlib

/-!
DFHack plugins: `buildingplan/itemfilter.cpp` and `preserve-rooms.cpp`.

A shallow embedding of the `ItemFilter` value object (quality range, decoration
flag, material mask, explicit material set, text serialization, `matches`) and
of the `preserve-rooms` plugin (reservation tables, noble-role assignment,
cycle, feature switches), followed by theorems about them.

Conventions of the embedding:

* `std::string` is a `List Char`; `std::vector<T>` is a `List T`;
* `std::set<MaterialInfo>` is a strictly increasing `List MaterialInfo`;
* `std::unordered_map<int32_t, V>` is an association list read by its first
  entry for a key;
* a member function that mutates `this` returns the new object;
* library functions that the two source files call but do not define are
  either fields of `Env` (material database, bitfield printing and parsing) or
  small definitions documented as such (`split_string`, `join_strings`,
  `linear_index`, `vector_erase_at`, `getUnitsByNobleRole`, `setOwner`);
* a pointer to a zone or to a unit is the id of the zone or unit;
* diagnostics written with `DEBUG(...)` have no effect on the state and are
  left out.
-/

namespace DFHack

/-! ## Strings -/

/-- Modelled from the spec: `split_string(&out, str, separator)` of the DFHack
utility library, which is not among the source files. The spec speaks of
"`/`-delimited fields", of which empty ones are valid, so the string is cut at
every occurrence of the separator and empty fields are kept; a string without
separator (the empty string included) is one field. Every call in the sources
passes a one-character separator. -/
def split_string : List Char → Char → List (List Char)
  | [], _ => [[]]
  | c :: cs, sep =>
    if c = sep then [] :: split_string cs sep
    else
      match split_string cs sep with
      | [] => [[c]]
      | t :: ts => (c :: t) :: ts

/-- Modelled from the spec: `join_strings(separator, items)` of the DFHack
utility library, which is not among the source files: the items written one
after the other ("comma-joined", "semicolon-joined"), the separator between
two consecutive items. -/
def join_strings (sep : Char) : List (List Char) → List Char
  | [] => []
  | [s] => s
  | s :: t :: rest => s ++ sep :: join_strings sep (t :: rest)

/-- Digits read by `atoi`: the longest run of decimal digits at the front of
the string, accumulated in base ten. -/
def atoi_digits : List Char → Nat → Nat
  | [], acc => acc
  | c :: cs, acc =>
    if c.isDigit then atoi_digits cs (acc * 10 + (c.toNat - 48)) else acc

/-- C standard library `isspace` in the default locale: space, and the control
characters from horizontal tab to carriage return. -/
def isspace (c : Char) : Bool :=
  c = ' ' || (decide (9 ≤ c.toNat) && decide (c.toNat ≤ 13))

/-- The number that `strtol(s, NULL, 10)` reads: leading white space is
skipped, then an optional sign and the longest run of decimal digits are read;
no digits gives `0`. -/
def strtol_value (s : List Char) : Int :=
  match s.dropWhile isspace with
  | '-' :: r => - (atoi_digits r 0 : Int)
  | '+' :: r => (atoi_digits r 0 : Int)
  | r => (atoi_digits r 0 : Int)

/-- C standard library `atoi`, an `int`. A number that fits an `int` is
returned as it is. For a number outside the range the C standard leaves the
result undefined; the value here is that of `(int) strtol(s, NULL, 10)` with a
64-bit `long`, as the GNU C library computes it: the number is brought into the
range of `long` and then reduced to 32 bits. -/
def atoi (s : List Char) : Int :=
  let v := strtol_value s
  let l := if v > 9223372036854775807 then 9223372036854775807
    else if v < -9223372036854775808 then -9223372036854775808 else v
  Int.bmod l 4294967296

/-- Decimal digits of a natural number, most significant first, with a bound
on the number of digits. -/
def nat_digits : Nat → Nat → List Char → List Char
  | 0, _, acc => acc
  | fuel + 1, n, acc =>
    let d := Char.ofNat (48 + n % 10)
    if n / 10 = 0 then d :: acc else nat_digits fuel (n / 10) (d :: acc)

/-- Text written by `ostream << int`: decimal, with a minus sign for negative
values. -/
def int_to_string : Int → List Char
  | Int.ofNat n => nat_digits (n + 1) n []
  | Int.negSucc n => '-' :: nat_digits (n + 2) (n + 1) []

/-! ## Materials and items -/

/-- Material identity `DFHack::MaterialInfo`: the material type and index from
which the other members are derived. -/
structure MaterialInfo where
  type : Int
  index : Int
deriving DecidableEq, Repr

/-- The order of `MaterialInfo` used by `std::set<MaterialInfo>`: by type, then
by index. -/
def MaterialInfo.lt (a b : MaterialInfo) : Bool :=
  decide (a.type < b.type) || (decide (a.type = b.type) && decide (a.index < b.index))

/-- Insertion `std::set::emplace` into an increasing list: an element that is
already present is not inserted again. -/
def set_emplace (m : MaterialInfo) : List MaterialInfo → List MaterialInfo
  | [] => [m]
  | x :: xs =>
    if m.lt x then m :: x :: xs
    else if x.lt m then x :: set_emplace m xs
    else x :: xs

/-- The view of a `df::item` that `ItemFilter::matches` takes: the results of
its four virtual getters. -/
structure item where
  getQuality : Int
  hasImprovements : Bool
  getActualMaterial : Int
  getActualMaterialIndex : Int
deriving DecidableEq, Repr

/-- Library functions and type conversions used by `itemfilter.cpp` and
declared outside it. A bitfield `df::dfhack_material_category` is its `whole`
value.

* `parseJobMaterialCategory mask ser`: success flag and the bitfield written
  through the pointer argument;
* `bitfield_to_string mask sep`;
* `MaterialInfo_find token`: the result of `material.find(token)` on a fresh
  `MaterialInfo` and the material afterwards;
* `MaterialInfo_isValid`, `MaterialInfo_getToken`;
* `MaterialInfo_matches a b` is `a.matches(b)` for a material `b`,
  `MaterialInfo_matches_category a mask` is `a.matches(mask)` for a category
  bitfield;
* `item_quality_cast n` is `static_cast<df::item_quality>(n)` for an `int`
  (the underlying type of the enumeration is declared outside the sources). -/
structure Env where
  parseJobMaterialCategory : Nat → List Char → Bool × Nat
  bitfield_to_string : Nat → Char → List Char
  MaterialInfo_find : List Char → Bool × MaterialInfo
  MaterialInfo_isValid : MaterialInfo → Bool
  MaterialInfo_getToken : MaterialInfo → List Char
  MaterialInfo_matches : MaterialInfo → MaterialInfo → Bool
  MaterialInfo_matches_category : MaterialInfo → Nat → Bool
  item_quality_cast : Int → Int

/-! ## Item quality -/

/-! The enumeration `df::item_quality` is declared in a generated header that
is not among the source files. A value of the enumeration is the integer it
stands for. -/

namespace item_quality

/-- Modelled from the spec: the enumerators of `df::item_quality`, missing from
the sources. The spec lists the levels Ordinary, FinelyCrafted, Superior,
Exceptional, Masterful, Artifact, in this order; they are numbered from 0.
Lowest level. -/
def Ordinary : Int := 0
/-- Modelled from the spec: second level of `df::item_quality`. -/
def FinelyCrafted : Int := 1
/-- Modelled from the spec: third level of `df::item_quality`. -/
def Superior : Int := 2
/-- Modelled from the spec: fourth level of `df::item_quality`. -/
def Exceptional : Int := 3
/-- Modelled from the spec: fifth level of `df::item_quality`, the default
upper bound of a filter. -/
def Masterful : Int := 4
/-- Modelled from the spec: highest level of `df::item_quality`. -/
def Artifact : Int := 5

end item_quality

/-! ## ItemFilter -/

/-- The data members of `class ItemFilter`. -/
structure ItemFilter where
  min_quality : Int
  max_quality : Int
  decorated_only : Bool
  mat_mask : Nat
  materials : List MaterialInfo
deriving DecidableEq, Repr

namespace ItemFilter

/-- Member `ItemFilter::clear()`: every data member is overwritten. -/
def clear (_self : ItemFilter) : ItemFilter :=
  { min_quality := item_quality.Ordinary
    max_quality := item_quality.Masterful
    decorated_only := false
    mat_mask := 0
    materials := [] }

/-- Default constructor `ItemFilter::ItemFilter()`: `clear()` on the new
object, whose members have no defined value before. -/
def ctor : ItemFilter :=
  clear { min_quality := 0, max_quality := 0, decorated_only := false, mat_mask := 0, materials := [] }

/-- Member `ItemFilter::isEmpty()`. -/
def isEmpty (self : ItemFilter) : Bool :=
  decide (self.min_quality = item_quality.Ordinary)
    && decide (self.max_quality = item_quality.Masterful)
    && !self.decorated_only
    && decide (self.mat_mask = 0)
    && self.materials.isEmpty

end ItemFilter

/-- Static `deserializeMaterialMask(ser, mat_mask)`. The bitfield is a value
parameter: what `parseJobMaterialCategory` writes goes to the local copy, and
the function gives back the success flag only. -/
def deserializeMaterialMask (E : Env) (ser : List Char) (mat_mask : Nat) : Bool :=
  if ser.isEmpty then true
  else if !(E.parseJobMaterialCategory mat_mask ser).1 then false
  else true

/-- The loop of `deserializeMaterials` over the material names: the first name
that is not found or not valid stops it with `false`; the materials emplaced
before stay in the set, which is a reference parameter. -/
def deserializeMaterials_loop (E : Env) : List (List Char) → List MaterialInfo → Bool × List MaterialInfo
  | [], materials => (true, materials)
  | m :: rest, materials =>
    let material := E.MaterialInfo_find m
    if !material.1 || !E.MaterialInfo_isValid material.2 then (false, materials)
    else deserializeMaterials_loop E rest (set_emplace material.2 materials)

/-- Static `deserializeMaterials(ser, materials)`: the success flag and the set
after the call. -/
def deserializeMaterials (E : Env) (ser : List Char) (materials : List MaterialInfo) :
    Bool × List MaterialInfo :=
  if ser.isEmpty then (true, materials)
  else deserializeMaterials_loop E (split_string ser ',') materials

/-- Static `clampItemQuality(&quality)`. -/
def clampItemQuality (quality : Int) : Int :=
  let quality := if quality > item_quality.Artifact then item_quality.Artifact else quality
  if quality < item_quality.Ordinary then item_quality.Ordinary else quality

namespace ItemFilter

/-- Member `ItemFilter::setMinQuality(int)`. -/
def setMinQuality (E : Env) (self : ItemFilter) (quality : Int) : ItemFilter :=
  let self := { self with min_quality := E.item_quality_cast quality }
  let self := { self with min_quality := clampItemQuality self.min_quality }
  if self.max_quality < self.min_quality then { self with max_quality := self.min_quality }
  else self

/-- Member `ItemFilter::setMaxQuality(int)`. -/
def setMaxQuality (E : Env) (self : ItemFilter) (quality : Int) : ItemFilter :=
  let self := { self with max_quality := E.item_quality_cast quality }
  let self := { self with max_quality := clampItemQuality self.max_quality }
  if self.max_quality < self.min_quality then { self with min_quality := self.max_quality }
  else self

/-- Member `ItemFilter::setDecoratedOnly(bool)`. -/
def setDecoratedOnly (self : ItemFilter) (decorated : Bool) : ItemFilter :=
  { self with decorated_only := decorated }

/-- Member `ItemFilter::setMaterialMask(uint32_t)`. -/
def setMaterialMask (self : ItemFilter) (mask : Nat) : ItemFilter :=
  { self with mat_mask := mask % 2 ^ 32 }

/-- Member `ItemFilter::setMaterials(const set<MaterialInfo> &)`. -/
def setMaterials (self : ItemFilter) (materials : List MaterialInfo) : ItemFilter :=
  { self with materials := materials }

/-- Constructor `ItemFilter::ItemFilter(color_ostream &, string)`. -/
def ctor_serialized (E : Env) (serialized : List Char) : ItemFilter :=
  let self := ctor
  let tokens := split_string serialized '/'
  if tokens.length ≠ 5 then self
  else if !deserializeMaterialMask E (tokens.getD 0 []) self.mat_mask then self
  else
    let r := deserializeMaterials E (tokens.getD 1 []) self.materials
    let self := { self with materials := r.2 }
    if !r.1 then self
    else
      let self := setMinQuality E self (atoi (tokens.getD 2 []))
      let self := setMaxQuality E self (atoi (tokens.getD 3 []))
      { self with decorated_only := decide (atoi (tokens.getD 4 []) ≠ 0) }

/-- Member `ItemFilter::serialize()`. -/
def serialize (E : Env) (self : ItemFilter) : List Char :=
  E.bitfield_to_string self.mat_mask ',' ++ '/' ::
    (if !self.materials.isEmpty then join_strings ',' (self.materials.map E.MaterialInfo_getToken)
     else []) ++ '/' ::
    int_to_string self.min_quality ++ '/' ::
    int_to_string self.max_quality ++ '/' ::
    int_to_string (if self.decorated_only then 1 else 0)

end ItemFilter

/-- Static `matchesMask(mat, mat_mask)`. -/
def matchesMask (E : Env) (mat : MaterialInfo) (mat_mask : Nat) : Bool :=
  if mat_mask ≠ 0 then E.MaterialInfo_matches_category mat mat_mask else true

namespace ItemFilter

/-- Member `ItemFilter::matches(df::dfhack_material_category)`. -/
def matches_category (self : ItemFilter) (mask : Nat) : Bool :=
  decide (mask &&& self.mat_mask ≠ 0)

/-- Member `ItemFilter::matches(DFHack::MaterialInfo &)`: the loop returns at
the first member of the set that the material matches. -/
def matches_material (E : Env) (self : ItemFilter) (material : MaterialInfo) : Bool :=
  self.materials.any (fun mat => E.MaterialInfo_matches material mat)

/-- Member `ItemFilter::matches(df::item *)`. -/
def matches_item (E : Env) (self : ItemFilter) (it : item) : Bool :=
  if it.getQuality < self.min_quality || it.getQuality > self.max_quality then false
  else if self.decorated_only && !it.hasImprovements then false
  else
    let item_mat : MaterialInfo := { type := it.getActualMaterial, index := it.getActualMaterialIndex }
    if self.materials.length = 0 then matchesMask E item_mat self.mat_mask
    else matches_material E self item_mat

end ItemFilter

/-- Function `deserialize_item_filters(out, serialized)`. -/
def deserialize_item_filters (E : Env) (serialized : List Char) : List ItemFilter :=
  (split_string serialized ';').map (ItemFilter.ctor_serialized E)

/-- Function `serialize_item_filters(filters)`. -/
def serialize_item_filters (E : Env) (filters : List ItemFilter) : List Char :=
  join_strings ';' (filters.map (ItemFilter.serialize E))

/-- The quality range of a filter is well formed:
`Ordinary <= min_quality <= max_quality <= Artifact`. -/
def QualityInv (f : ItemFilter) : Prop :=
  item_quality.Ordinary ≤ f.min_quality ∧ f.min_quality ≤ f.max_quality ∧
    f.max_quality ≤ item_quality.Artifact

/-- The conversion of an `int` to `df::item_quality` keeps the value of every
quality level. -/
def Env.cast_exact (E : Env) : Prop :=
  ∀ q : Int, item_quality.Ordinary ≤ q → q ≤ item_quality.Artifact → E.item_quality_cast q = q

/-- The material of an item, as `ItemFilter::matches(df::item *)` builds it. -/
def item.material (it : item) : MaterialInfo :=
  { type := it.getActualMaterial, index := it.getActualMaterialIndex }

/-- A material that the database prints and reads back: its token is not
empty, holds none of the separators of the serialization, and is resolved by
`find` to the material itself, which is valid. -/
def Env.canonical (E : Env) (m : MaterialInfo) : Prop :=
  E.MaterialInfo_find (E.MaterialInfo_getToken m) = (true, m) ∧
    E.MaterialInfo_isValid m = true ∧
    E.MaterialInfo_getToken m ≠ [] ∧
    ∀ c ∈ E.MaterialInfo_getToken m, c ≠ '/' ∧ c ≠ ',' ∧ c ≠ ';'

/-- A well-formed filter: the quality range is well formed with
`max_quality <= Artifact`, and the material set is strictly increasing (as a
`std::set` is) and holds canonical materials only. -/
def ItemFilter.well_formed (E : Env) (f : ItemFilter) : Prop :=
  QualityInv f ∧ f.materials.Pairwise (fun a b => a.lt b = true) ∧
    ∀ m ∈ f.materials, E.canonical m

/-! ## A concrete material database

An instance of `Env` on which the definitions can be evaluated: three inorganic
materials, three material categories, materials matching by identity, and a
quality enumeration stored in sixteen bits. -/

/-- Material table of the instance: token, material, bit of its category. -/
def sample_materials : List (List Char × MaterialInfo × Nat) :=
  [ ("INORGANIC:GRANITE".toList, { type := 0, index := 1 }, 14),
    ("INORGANIC:MARBLE".toList, { type := 0, index := 2 }, 14),
    ("INORGANIC:IRON".toList, { type := 0, index := 3 }, 13) ]

/-- Category table of the instance: flag name and bit number. -/
def sample_categories : List (List Char × Nat) :=
  [ ("wood".toList, 1), ("metal".toList, 13), ("stone".toList, 14) ]

/-- Bits of the named flags, or failure at the first unknown name. -/
def sample_parse_flags : List (List Char) → Nat → Bool × Nat
  | [], mask => (true, mask)
  | n :: rest, mask =>
    match sample_categories.lookup n with
    | none => (false, mask)
    | some b => sample_parse_flags rest (mask ||| 2 ^ b)

/-- The concrete instance of `Env`. -/
def sample_env : Env where
  parseJobMaterialCategory := fun _ ser => sample_parse_flags (split_string ser ',') 0
  bitfield_to_string := fun mask sep =>
    join_strings sep ((sample_categories.filter (fun e => mask.testBit e.2)).map Prod.fst)
  MaterialInfo_find := fun token =>
    match sample_materials.lookup token with
    | none => (false, { type := -1, index := -1 })
    | some e => (true, e.1)
  MaterialInfo_isValid := fun m => sample_materials.any (fun e => decide (e.2.1 = m))
  MaterialInfo_getToken := fun m =>
    match sample_materials.find? (fun e => decide (e.2.1 = m)) with
    | none => "NONE".toList
    | some e => e.1
  MaterialInfo_matches := fun a b => decide (a = b)
  MaterialInfo_matches_category := fun m mask =>
    sample_materials.any (fun e => decide (e.2.1 = m) && mask.testBit e.2.2)
  item_quality_cast := fun n => Int.bmod n 65536

/-! ## preserve-rooms: the reservation tables -/

/-- Lookup `unordered_map::find`: the value of the first entry for the key. -/
def umap_find {V : Type} : List (Int × V) → Int → Option V
  | [], _ => none
  | (k, v) :: rest, key => if k = key then some v else umap_find rest key

/-- Removal `unordered_map::erase`: no entry for the key remains. -/
def umap_erase {V : Type} (m : List (Int × V)) (key : Int) : List (Int × V) :=
  m.filter (fun e => decide (e.1 ≠ key))

/-- Assignment through a reference to the mapped value of an existing key. -/
def umap_assign {V : Type} (m : List (Int × V)) (key : Int) (v : V) : List (Int × V) :=
  m.map (fun e => if e.1 = key then (e.1, v) else e)

/-- Modelled from the spec: `linear_index(vec, key)` of the DFHack utility
library, which is not among the source files: the position of the first
element equal to the key, `-1` when there is none. -/
def linear_index {α : Type} [DecidableEq α] : List α → α → Int
  | [], _ => -1
  | x :: xs, key =>
    if x = key then 0
    else
      let i := linear_index xs key
      if i < 0 then -1 else i + 1

/-- Modelled from the spec: `vector_erase_at(vec, idx)` of the DFHack utility
library, which is not among the source files: the element at position `idx`
is removed; an `idx` that is not a position of the vector (as `-1` from
`linear_index`) removes nothing. -/
def vector_erase_at (vec : List Int) (idx : Int) : List Int :=
  if 0 ≤ idx ∧ idx < vec.length then vec.eraseIdx idx.toNat else vec

/-- The members of `df::building_civzonest` that the plugin reads or writes:
the building id, the bit `spec_sub_flag.bits.active`, the zone type (a value
of `df::civzone_type`) and the pointer `assigned_unit` (`none` for a null
pointer). A pointer to a unit is the id of the unit. -/
structure building_civzonest where
  id : Int
  active : Bool
  type : Int := 0
  assigned_unit : Option Int := none
deriving DecidableEq, Repr

/-- The view of a `df::unit` that the plugin takes: the unit id, the results of
`Units::isCitizen(unit, true)` and `Units::isResident(unit, true)`, the vector
`owned_buildings` (pointers to zones, each the id of the zone), and the codes
of the noble roles the unit holds, which the role query reads. -/
structure unit where
  id : Int
  isCitizen : Bool
  isResident : Bool
  owned_buildings : List Int
  noble_roles : List String
deriving DecidableEq, Repr

/-- The file-level state of `preserve-rooms.cpp` and the part of the world it
works on. A pointer to a zone is the id of the zone.

* the four snapshots, the two reservation tables and `noble_zones`;
* `civzones`: the civzones of the world, which `df::building::find` searches;
* `config_track_missions`, `config_track_roles`: the two booleans of the
  persistent item `config`;
* `is_enabled`, `cycle_timestamp`: the plugin globals of these names;
* `frame_counter`: `world->frame_counter`;
* `units`: the units of the world;
* `ZONE_BEDROOM`, `ZONE_OFFICE`, `ZONE_DINING_HALL`, `ZONE_TOMB`: the vectors
  of these names in `world->buildings.other`. -/
structure State where
  last_known_assignments_bedroom : List (Int × List Int)
  last_known_assignments_office : List (Int × List Int)
  last_known_assignments_dining : List (Int × List Int)
  last_known_assignments_tomb : List (Int × List Int)
  pending_reassignment : List (Int × List Int)
  reserved_zones : List (Int × List Int)
  noble_zones : List (Int × String)
  civzones : List building_civzonest
  config_track_missions : Bool := false
  config_track_roles : Bool := true
  is_enabled : Bool := false
  cycle_timestamp : Int := 0
  frame_counter : Int := 0
  units : List unit := []
  ZONE_BEDROOM : List Int := []
  ZONE_OFFICE : List Int := []
  ZONE_DINING_HALL : List Int := []
  ZONE_TOMB : List Int := []
deriving DecidableEq, Repr

/-- Lookup `virtual_cast<df::building_civzonest>(df::building::find(zone_id))`:
the zone with this id, if there is one. -/
def find_civzone (s : State) (zone_id : Int) : Option building_civzonest :=
  s.civzones.find? (fun b => decide (b.id = zone_id))

/-- Statement `zone->spec_sub_flag.bits.active = true` for the zone with the
given id. -/
def set_active (s : State) (zone_id : Int) : State :=
  { s with civzones := s.civzones.map (fun b => if b.id = zone_id then { b with active := true } else b) }

/-- Function `clear_track_missions_state()`. -/
def clear_track_missions_state (s : State) : State :=
  { s with
    last_known_assignments_bedroom := []
    last_known_assignments_office := []
    last_known_assignments_dining := []
    last_known_assignments_tomb := []
    pending_reassignment := []
    reserved_zones := [] }

/-- Function `clear_track_roles_state()`. -/
def clear_track_roles_state (s : State) : State :=
  { s with noble_zones := [] }

/-- The loop of `clear_reservation` over the occupants of the zone, on the
table `pending_reassignment`. -/
def clear_reservation_loop (zone_id : Int) : List Int → List (Int × List Int) → List (Int × List Int)
  | [], pending => pending
  | hfid :: rest, pending =>
    match umap_find pending hfid with
    | none => clear_reservation_loop zone_id rest pending
    | some zone_ids =>
      let zone_ids := vector_erase_at zone_ids (linear_index zone_ids zone_id)
      if zone_ids.isEmpty then clear_reservation_loop zone_id rest (umap_erase pending hfid)
      else clear_reservation_loop zone_id rest (umap_assign pending hfid zone_ids)

/-- Function `clear_reservation(out, zone_id, zone)`; `zone` is `none` for the
default argument `NULL`. -/
def clear_reservation (s : State) (zone_id : Int) (zone : Option Int) : State :=
  match umap_find s.reserved_zones zone_id with
  | none => s
  | some hfids =>
    let s := { s with pending_reassignment := clear_reservation_loop zone_id hfids s.pending_reassignment }
    let s := { s with reserved_zones := umap_erase s.reserved_zones zone_id }
    let zone := match zone with
      | none => (find_civzone s zone_id).map (fun b => b.id)
      | some z => some z
    match zone with
    | none => s
    | some z => set_active s z

/-- Function `preserve_rooms_resetFeatureState(out, feature)`: the returned
flag and the state after the call. -/
def preserve_rooms_resetFeatureState (s : State) (feature : String) : Bool × State :=
  if feature = "track-missions" then
    let zone_ids := s.reserved_zones.map Prod.fst
    let s := zone_ids.foldl (fun s zone_id => clear_reservation s zone_id none) s
    (true, clear_track_missions_state s)
  else if feature = "track-roles" then (true, clear_track_roles_state s)
  else (false, s)

/-- Function `preserve_rooms_clearReservation(out)`, for the selected zone
`Gui::getSelectedCivZone` gives (`none` when it gives no zone). -/
def preserve_rooms_clearReservation (s : State) (selected : Option Int) : Bool × State :=
  match selected with
  | none => (false, s)
  | some zone => (true, clear_reservation s zone (some zone))

/-! ## preserve-rooms: noble roles and the cycle -/

/-- Iteration over an `unordered_map`, with the keys met so far: an entry
whose key was met before is not an entry of the map. -/
def umap_items_from {V : Type} : List (Int × V) → List Int → List (Int × V)
  | [], _ => []
  | e :: rest, seen =>
    if e.1 ∈ seen then umap_items_from rest seen
    else e :: umap_items_from rest (e.1 :: seen)

/-- The entries that a range-`for` over an `unordered_map` visits: one entry
per key, the one `find` reads. -/
def umap_items {V : Type} (m : List (Int × V)) : List (Int × V) :=
  umap_items_from m []

/-- Function `is_noble_zone(zone_id, code)`. -/
def is_noble_zone (s : State) (zone_id : Int) (code : String) : Bool :=
  match umap_find s.noble_zones zone_id with
  | none => false
  | some c => decide (c = code)

/-- Modelled from the spec: `Units::getUnitsByNobleRole(units, code)` of the
DFHack library, which is not among the source files: "the set of living units
currently holding that role", in the order of the units of the world. -/
def getUnitsByNobleRole (s : State) (code : String) : List unit :=
  s.units.filter (fun u => decide (code ∈ u.noble_roles))

/-- Modelled from the spec: `Buildings::setOwner(zone, unit)` of the DFHack
library, which is not among the source files ("assign ownership to the
candidate"): the pointer `assigned_unit` of the zone becomes the unit, the
zone leaves the `owned_buildings` of its previous owner and joins those of the
unit. Nothing changes when the unit is the owner already. -/
def setOwner (s : State) (zone : building_civzonest) (u : unit) : State :=
  if zone.assigned_unit = some u.id then s
  else
    { s with
      civzones := s.civzones.map
        (fun b => if b.id = zone.id then { b with assigned_unit := some u.id } else b)
      units := s.units.map (fun x =>
        let x :=
          if some x.id = zone.assigned_unit then
            { x with owned_buildings :=
                vector_erase_at x.owned_buildings (linear_index x.owned_buildings zone.id) }
          else x
        if x.id = u.id then { x with owned_buildings := x.owned_buildings ++ [zone.id] } else x) }

/-- The loop of `assign_nobles` over `unit->owned_buildings`, giving the value
of `found`: some owned zone has the type of `zone` and is registered in
`noble_zones` under `code`. -/
def assign_nobles_found (s : State) (zone : building_civzonest) (code : String) : List Int → Bool
  | [] => false
  | p :: rest =>
    match find_civzone s p with
    | none => assign_nobles_found s zone code rest
    | some owned_zone =>
      if owned_zone.type = zone.type && is_noble_zone s owned_zone.id code then true
      else assign_nobles_found s zone code rest

/-- The loop of `assign_nobles` over the units holding the role: the first unit
that passes both tests becomes the owner and ends the loop. -/
def assign_nobles_units (s : State) (zone : building_civzonest) (code : String) : List unit → State
  | [] => s
  | u :: rest =>
    if !u.isCitizen && !u.isResident then assign_nobles_units s zone code rest
    else if assign_nobles_found s zone code u.owned_buildings then assign_nobles_units s zone code rest
    else setOwner s zone u

/-- The body of the loop of `assign_nobles` for one entry of `noble_zones`. -/
def assign_nobles_zone (s : State) (zone_id : Int) (code : String) : State :=
  match find_civzone s zone_id with
  | none => s
  | some zone =>
    let units := getUnitsByNobleRole s code
    if linear_index (units.map (fun u => some u.id)) zone.assigned_unit ≥ 0 then s
    else assign_nobles_units s zone code units

/-- Function `assign_nobles(out)`. -/
def assign_nobles (s : State) : State :=
  (umap_items s.noble_zones).foldl (fun s e => assign_nobles_zone s e.1 e.2) s

/-- Function `scan_assignments(out, last_known, vec, exclude_spouse)`: the
value of `last_known` after the call. The body builds an empty vector
`assignments` and assigns it; `vec` and `exclude_spouse` are not read. -/
def scan_assignments (_last_known : List (Int × List Int)) (_vec : List Int)
    (_exclude_spouse : Bool) : List (Int × List Int) :=
  let assignments : List (Int × List Int) := []
  assignments

/-- Function `do_cycle(out)`. -/
def do_cycle (s : State) : State :=
  let s := { s with cycle_timestamp := s.frame_counter }
  let s := assign_nobles s
  let s := { s with last_known_assignments_bedroom :=
    scan_assignments s.last_known_assignments_bedroom s.ZONE_BEDROOM false }
  let s := { s with last_known_assignments_office :=
    scan_assignments s.last_known_assignments_office s.ZONE_OFFICE false }
  let s := { s with last_known_assignments_dining :=
    scan_assignments s.last_known_assignments_dining s.ZONE_DINING_HALL false }
  { s with last_known_assignments_tomb :=
    scan_assignments s.last_known_assignments_tomb s.ZONE_TOMB true }

/-- Function `preserve_rooms_cycle(out)`. -/
def preserve_rooms_cycle (s : State) : State :=
  do_cycle s

/-- Function `preserve_rooms_setFeature(out, enabled, feature)`: the returned
flag and the state after the call. -/
def preserve_rooms_setFeature (s : State) (enabled : Bool) (feature : String) : Bool × State :=
  if feature = "track-missions" then
    let s := { s with config_track_missions := enabled }
    if s.is_enabled && enabled then (true, do_cycle s) else (true, s)
  else if feature = "track-roles" then
    (true, { s with config_track_roles := enabled })
  else (false, s)

/-- The two tests of the loop of `assign_nobles` over the units, for one unit:
the unit is a citizen or a resident, and `found` is false for it. -/
def assign_nobles_accepts (s : State) (zone : building_civzonest) (code : String) (u : unit) : Bool :=
  (u.isCitizen || u.isResident) && !assign_nobles_found s zone code u.owned_buildings

/-- The state `t` differs from `s` at most in who owns which zone: apart from
the pointers `assigned_unit` of the zones and the vectors `owned_buildings`
of the units, the two states are equal. -/
def SameButOwners (s t : State) : Prop :=
  { t with civzones := s.civzones, units := s.units } = s ∧
    t.civzones.map (fun b => (b.id, b.active, b.type))
      = s.civzones.map (fun b => (b.id, b.active, b.type)) ∧
    t.units.map (fun u => (u.id, u.isCitizen, u.isResident, u.noble_roles))
      = s.units.map (fun u => (u.id, u.isCitizen, u.isResident, u.noble_roles))

/-- The owner of the zone with the given id: the unit id in `assigned_unit`;
`none` when there is no such zone or the zone has no owner. -/
def owner_of (s : State) (zone_id : Int) : Option Int :=
  (find_civzone s zone_id).bind (fun b => b.assigned_unit)

/-- The operations of the source on a state that holds the reservation
tables. -/
inductive TableOp where
  | clear_reservation (zone_id : Int) (zone : Option Int)
  | resetFeatureState (feature : String)
  | clearReservation (selected : Option Int)
  | cycle
  | setFeature (enabled : Bool) (feature : String)
deriving DecidableEq, Repr

/-- One operation applied to a state. -/
def TableOp.apply (s : State) : TableOp → State
  | .clear_reservation zone_id zone => DFHack.clear_reservation s zone_id zone
  | .resetFeatureState feature => (preserve_rooms_resetFeatureState s feature).2
  | .clearReservation selected => (preserve_rooms_clearReservation s selected).2
  | .cycle => preserve_rooms_cycle s
  | .setFeature enabled feature => (preserve_rooms_setFeature s enabled feature).2

/-- The zone ids listed for occupant `o` (or occupant ids listed for zone `z`)
in a table; none when the table has no entry for the key. -/
def entries (m : List (Int × List Int)) (key : Int) : List Int :=
  (umap_find m key).getD []

/-- The transpose relation between the two tables: `z` is listed under `o` in
`pending_reassignment` exactly when `o` is listed under `z` in
`reserved_zones`. -/
def Transpose (s : State) : Prop :=
  ∀ o z : Int, z ∈ entries s.pending_reassignment o ↔ o ∈ entries s.reserved_zones z

/-- No list of `pending_reassignment` names a zone twice. -/
def PendingNodup (s : State) : Prop :=
  ∀ o : Int, (entries s.pending_reassignment o).Nodup

/-- A state with one reservation: zone 7 is held for occupant 1. -/
def sample_state : State where
  last_known_assignments_bedroom := [(7, [1])]
  last_known_assignments_office := []
  last_known_assignments_dining := []
  last_known_assignments_tomb := []
  pending_reassignment := [(1, [7])]
  reserved_zones := [(7, [1])]
  noble_zones := []
  civzones := [{ id := 7, active := false }, { id := 8, active := true }]

/-- The state `sample_state` with zone 7 listed twice for occupant 1. -/
def sample_state_twice : State :=
  { sample_state with pending_reassignment := [(1, [7, 7])] }

/-- A state with two registered zones. Bedroom 7 is registered for the mayor
and owned by unit 1, who holds no role; the mayor is unit 2, a citizen whose
`owned_buildings` hold zone 7 (as those of the spouse of the owner do), and
unit 3 is a second mayor who owns nothing. Office 9 is registered for the
sheriff and owned by the sheriff, unit 4. -/
def sample_nobles : State where
  last_known_assignments_bedroom := []
  last_known_assignments_office := []
  last_known_assignments_dining := []
  last_known_assignments_tomb := []
  pending_reassignment := []
  reserved_zones := []
  noble_zones := [(7, "MAYOR"), (9, "SHERIFF"), (5, "MAYOR")]
  civzones :=
    [ { id := 7, active := true, type := 1, assigned_unit := some 1 },
      { id := 9, active := true, type := 2, assigned_unit := some 4 } ]
  units :=
    [ { id := 1, isCitizen := true, isResident := false, owned_buildings := [7], noble_roles := [] },
      { id := 2, isCitizen := true, isResident := false, owned_buildings := [7],
        noble_roles := ["MAYOR"] },
      { id := 3, isCitizen := false, isResident := true, owned_buildings := [],
        noble_roles := ["MAYOR"] },
      { id := 4, isCitizen := true, isResident := false, owned_buildings := [9],
        noble_roles := ["SHERIFF"] } ]

/-- The state `sample_nobles` where only unit 2 is mayor. -/
def sample_nobles_spouse : State :=
  { sample_nobles with
    units :=
      [ { id := 1, isCitizen := true, isResident := false, owned_buildings := [7], noble_roles := [] },
        { id := 2, isCitizen := true, isResident := false, owned_buildings := [7],
          noble_roles := ["MAYOR"] } ] }

/-- A state at the start of a cycle: the bedroom snapshot records zone 7 as
owned by occupant 1, no unit is on the map, nothing is reserved, and zone 7
is active. -/
def sample_left_map : State where
  last_known_assignments_bedroom := [(7, [1])]
  last_known_assignments_office := []
  last_known_assignments_dining := []
  last_known_assignments_tomb := []
  pending_reassignment := []
  reserved_zones := []
  noble_zones := []
  civzones := [{ id := 7, active := true, type := 1, assigned_unit := none }]
  is_enabled := true
  config_track_missions := true
  frame_counter := 1200
  ZONE_BEDROOM := [7]

/-! ## Theorems: ItemFilter -/

theorem clampItemQuality_range (q : Int) :
    item_quality.Ordinary ≤ clampItemQuality q ∧ clampItemQuality q ≤ item_quality.Artifact := by
  simp only [clampItemQuality, item_quality.Ordinary, item_quality.Artifact]
  split_ifs <;> omega

theorem clampItemQuality_of_range (q : Int) (h0 : item_quality.Ordinary ≤ q)
    (h1 : q ≤ item_quality.Artifact) : clampItemQuality q = q := by
  simp only [clampItemQuality, item_quality.Ordinary, item_quality.Artifact] at *
  split_ifs <;> omega

theorem clampItemQuality_eq (q : Int) : clampItemQuality q = max 0 (min q 5) := by
  simp only [clampItemQuality, item_quality.Ordinary, item_quality.Artifact]
  split_ifs <;> omega

theorem sample_env_cast_exact : sample_env.cast_exact := by
  intro q h0 h1
  unfold item_quality.Ordinary item_quality.Artifact at *
  show Int.bmod q 65536 = q
  unfold Int.bmod
  simp only
  split_ifs <;> omega

/-- The result of `matches(df::item *)` read off its three tests. -/
theorem ItemFilter.matches_item_spec (E : Env) (f : ItemFilter) (it : item) :
    f.matches_item E it = true ↔
      (f.min_quality ≤ it.getQuality ∧ it.getQuality ≤ f.max_quality) ∧
      (f.decorated_only = false ∨ it.hasImprovements = true) ∧
      (f.materials ≠ [] →
        ∃ mat ∈ f.materials, E.MaterialInfo_matches it.material mat = true) ∧
      (f.materials = [] →
        f.mat_mask = 0 ∨ E.MaterialInfo_matches_category it.material f.mat_mask = true) := by
  unfold ItemFilter.matches_item ItemFilter.matches_material matchesMask item.material
  cases hm : f.materials with
  | nil =>
    by_cases hq1 : it.getQuality < f.min_quality <;> by_cases hq2 : it.getQuality > f.max_quality <;>
      cases hd : f.decorated_only <;> cases hi : it.hasImprovements <;>
      by_cases hk : f.mat_mask = 0 <;> simp [hq1, hq2, hk] <;> omega
  | cons x xs =>
    by_cases hq1 : it.getQuality < f.min_quality <;> by_cases hq2 : it.getQuality > f.max_quality <;>
      cases hd : f.decorated_only <;> cases hi : it.hasImprovements <;>
      simp [hq1, hq2] <;> omega

/-- C1: `matches(item)` is true exactly when the quality of the item lies in
`[min_quality, max_quality]`, the filter is not decorated-only or the item has
improvements, and the material test passes: with a non-empty material set the
material of the item matches some member of the set, with an empty set the
mask is zero or the material matches the mask. -/
theorem ItemFilter.matches_item_iff (E : Env) (f : ItemFilter) (it : item) :
    f.matches_item E it = true ↔
      (f.min_quality ≤ it.getQuality ∧ it.getQuality ≤ f.max_quality) ∧
      (f.decorated_only = false ∨ it.hasImprovements = true) ∧
      (f.materials ≠ [] →
        ∃ mat ∈ f.materials, E.MaterialInfo_matches it.material mat = true) ∧
      (f.materials = [] →
        f.mat_mask = 0 ∨ E.MaterialInfo_matches_category it.material f.mat_mask = true) :=
  ItemFilter.matches_item_spec E f it

/-- The equivalence on a filter for granite with the stone mask: a granite
item of quality 2 matches, since its material is in the set. -/
theorem ItemFilter.matches_item_iff_witness :
    (ItemFilter.mk 0 4 false (2 ^ 14) [⟨0, 1⟩]).matches_item sample_env ⟨2, false, 0, 1⟩ = true :=
  (ItemFilter.matches_item_iff sample_env (ItemFilter.mk 0 4 false (2 ^ 14) [⟨0, 1⟩])
    ⟨2, false, 0, 1⟩).mpr
    ⟨⟨by decide, by decide⟩, Or.inl rfl, fun _ => ⟨⟨0, 1⟩, by decide, by decide⟩,
      fun h => absurd h (by decide)⟩

/-- C4 (as stated): a cleared filter is empty, yet it rejects an item of
Artifact quality, which lies above its upper bound Masterful. -/
theorem ItemFilter.cleared_rejects_artifact :
    ItemFilter.ctor.isEmpty = true ∧
      ItemFilter.ctor.matches_item sample_env
        { getQuality := item_quality.Artifact, hasImprovements := false,
          getActualMaterial := 0, getActualMaterialIndex := 1 } = false := by
  decide

/-- C4 (amended): a cleared filter, from `ItemFilter()` or `clear()`, has
`isEmpty() == true` and matches every item whose quality lies in
Ordinary..Masterful, whatever its material and decoration. -/
theorem ItemFilter.cleared_matches (E : Env) (f : ItemFilter) (it : item)
    (h0 : item_quality.Ordinary ≤ it.getQuality) (h1 : it.getQuality ≤ item_quality.Masterful) :
    ItemFilter.ctor.isEmpty = true ∧ f.clear.isEmpty = true ∧
      ItemFilter.ctor.matches_item E it = true ∧ f.clear.matches_item E it = true := by
  have hm : f.clear.matches_item E it = true := by
    rw [ItemFilter.matches_item_spec]
    exact ⟨⟨h0, h1⟩, Or.inl rfl, fun h => absurd rfl h, fun _ => Or.inl rfl⟩
  exact ⟨by decide, by simp [ItemFilter.clear, ItemFilter.isEmpty], hm, hm⟩

/-- The cleared filter and a cleared non-trivial filter on a marble item of
Masterful quality. -/
theorem ItemFilter.cleared_matches_witness :
    ItemFilter.ctor.isEmpty = true ∧
      (ItemFilter.clear ⟨2, 3, true, 7, [⟨0, 1⟩]⟩).isEmpty = true ∧
      ItemFilter.ctor.matches_item sample_env ⟨item_quality.Masterful, false, 0, 2⟩ = true ∧
      (ItemFilter.clear ⟨2, 3, true, 7, [⟨0, 1⟩]⟩).matches_item sample_env
        ⟨item_quality.Masterful, false, 0, 2⟩ = true :=
  ItemFilter.cleared_matches sample_env ⟨2, 3, true, 7, [⟨0, 1⟩]⟩ ⟨item_quality.Masterful, false, 0, 2⟩
    (by decide) (by decide)

/-- C5: when the material set of a filter is non-empty, `matches(item)` does
not depend on the mask: replacing `mat_mask` by any other value gives the same
result on every item. In particular a filter whose set is `{granite}` rejects
an item whose material does not match granite, whatever the mask. -/
theorem ItemFilter.mask_ignored (E : Env) (f : ItemFilter) (it : item)
    (h : f.materials ≠ []) :
    (∀ mask : Nat, ({ f with mat_mask := mask } : ItemFilter).matches_item E it = f.matches_item E it) ∧
    (∀ granite : MaterialInfo, f.materials = [granite] →
      E.MaterialInfo_matches it.material granite = false → f.matches_item E it = false) := by
  constructor
  · intro mask
    have hl : f.materials.length ≠ 0 := by
      intro h0
      exact h (List.length_eq_zero.mp h0)
    simp [ItemFilter.matches_item, ItemFilter.matches_material, hl]
  · intro granite hg hno
    cases hr : f.matches_item E it with
    | false => rfl
    | true =>
      rw [ItemFilter.matches_item_spec] at hr
      obtain ⟨mat, hmem, hmat⟩ := hr.2.2.1 h
      rw [hg, List.mem_singleton] at hmem
      rw [hmem, hno] at hmat
      exact absurd hmat (by decide)

/-- A filter for granite with the stone mask on a marble item: marble matches
the mask, the result is that of the filter without mask, and it is `false`. -/
theorem ItemFilter.mask_ignored_witness :
    sample_env.MaterialInfo_matches_category ⟨0, 2⟩ (2 ^ 14) = true ∧
      (ItemFilter.mk 0 4 false 0 [⟨0, 1⟩]).matches_item sample_env ⟨0, false, 0, 2⟩
        = (ItemFilter.mk 0 4 false (2 ^ 14) [⟨0, 1⟩]).matches_item sample_env ⟨0, false, 0, 2⟩ ∧
      (ItemFilter.mk 0 4 false (2 ^ 14) [⟨0, 1⟩]).matches_item sample_env ⟨0, false, 0, 2⟩ = false :=
  have h := ItemFilter.mask_ignored sample_env (ItemFilter.mk 0 4 false (2 ^ 14) [⟨0, 1⟩])
    ⟨0, false, 0, 2⟩ (by decide)
  ⟨by decide, h.1 0, h.2 ⟨0, 1⟩ rfl (by decide)⟩

theorem ItemFilter.setMinQuality_fields (E : Env) (f : ItemFilter) (n : Int) :
    (f.setMinQuality E n).min_quality = clampItemQuality (E.item_quality_cast n) ∧
    (f.setMinQuality E n).max_quality = max f.max_quality (clampItemQuality (E.item_quality_cast n)) ∧
    (f.setMinQuality E n).decorated_only = f.decorated_only ∧
    (f.setMinQuality E n).mat_mask = f.mat_mask ∧
    (f.setMinQuality E n).materials = f.materials := by
  unfold ItemFilter.setMinQuality
  dsimp only
  split_ifs with hlt
  · refine ⟨rfl, ?_, rfl, rfl, rfl⟩
    dsimp only
    omega
  · refine ⟨rfl, ?_, rfl, rfl, rfl⟩
    dsimp only
    omega

theorem ItemFilter.setMaxQuality_fields (E : Env) (f : ItemFilter) (n : Int) :
    (f.setMaxQuality E n).max_quality = clampItemQuality (E.item_quality_cast n) ∧
    (f.setMaxQuality E n).min_quality = min f.min_quality (clampItemQuality (E.item_quality_cast n)) ∧
    (f.setMaxQuality E n).decorated_only = f.decorated_only ∧
    (f.setMaxQuality E n).mat_mask = f.mat_mask ∧
    (f.setMaxQuality E n).materials = f.materials := by
  unfold ItemFilter.setMaxQuality
  dsimp only
  split_ifs with hlt
  · refine ⟨rfl, ?_, rfl, rfl, rfl⟩
    dsimp only
    omega
  · refine ⟨rfl, ?_, rfl, rfl, rfl⟩
    dsimp only
    omega

theorem ItemFilter.setMinQuality_inv (E : Env) (f : ItemFilter) (n : Int)
    (h : f.max_quality ≤ item_quality.Artifact) : QualityInv (f.setMinQuality E n) := by
  obtain ⟨h1, h2, -⟩ := ItemFilter.setMinQuality_fields E f n
  obtain ⟨c0, c1⟩ := clampItemQuality_range (E.item_quality_cast n)
  unfold QualityInv
  rw [h1, h2]
  refine ⟨c0, ?_, ?_⟩ <;> omega

theorem ItemFilter.setMaxQuality_inv (E : Env) (f : ItemFilter) (n : Int)
    (h : item_quality.Ordinary ≤ f.min_quality) : QualityInv (f.setMaxQuality E n) := by
  obtain ⟨h1, h2, -⟩ := ItemFilter.setMaxQuality_fields E f n
  obtain ⟨c0, c1⟩ := clampItemQuality_range (E.item_quality_cast n)
  unfold QualityInv
  rw [h1, h2]
  refine ⟨?_, ?_, c1⟩ <;> omega

theorem ItemFilter.ctor_inv : QualityInv ItemFilter.ctor := by
  unfold QualityInv
  decide

theorem ItemFilter.ctor_serialized_inv (E : Env) (s : List Char) :
    QualityInv (ItemFilter.ctor_serialized E s) := by
  unfold ItemFilter.ctor_serialized
  dsimp only
  split_ifs
  · exact ItemFilter.ctor_inv
  · exact ItemFilter.ctor_inv
  · exact ItemFilter.ctor_inv
  · have hmax : ∀ l : List MaterialInfo,
        ({ ItemFilter.ctor with materials := l } : ItemFilter).max_quality ≤ item_quality.Artifact := by
      intro l
      show ItemFilter.ctor.max_quality ≤ item_quality.Artifact
      decide
    exact ItemFilter.setMaxQuality_inv E _ _ (ItemFilter.setMinQuality_inv E _ _ (hmax _)).1

/-- C6: `Ordinary <= min_quality <= max_quality <= Artifact` holds for a newly
constructed filter and for every filter after `clear()`, and is preserved by
`setMinQuality(n)` and `setMaxQuality(n)` for every integer `n`: the bound that
is set becomes the converted `n` clamped into Ordinary..Artifact (a value above
Artifact becomes Artifact, a value below Ordinary becomes Ordinary, a value in
between is kept) and the other bound is pulled to it when crossed. Hence it
holds for the filter constructed from any string. -/
theorem ItemFilter.quality_invariant (E : Env) (f : ItemFilter) (n : Int) (s : List Char)
    (h : QualityInv f) :
    QualityInv ItemFilter.ctor ∧ (∀ g : ItemFilter, QualityInv g.clear) ∧
    (QualityInv (f.setMinQuality E n) ∧
      (f.setMinQuality E n).min_quality = clampItemQuality (E.item_quality_cast n) ∧
      (f.setMinQuality E n).max_quality = max f.max_quality (f.setMinQuality E n).min_quality) ∧
    (QualityInv (f.setMaxQuality E n) ∧
      (f.setMaxQuality E n).max_quality = clampItemQuality (E.item_quality_cast n) ∧
      (f.setMaxQuality E n).min_quality = min f.min_quality (f.setMaxQuality E n).max_quality) ∧
    (∀ q : Int, clampItemQuality q = max item_quality.Ordinary (min q item_quality.Artifact)) ∧
    (∀ q : Int, item_quality.Artifact < q → clampItemQuality q = item_quality.Artifact) ∧
    (∀ q : Int, q < item_quality.Ordinary → clampItemQuality q = item_quality.Ordinary) ∧
    (∀ q : Int, item_quality.Ordinary ≤ q → q ≤ item_quality.Artifact → clampItemQuality q = q) ∧
    item_quality.Ordinary ≤ clampItemQuality (E.item_quality_cast n) ∧
    clampItemQuality (E.item_quality_cast n) ≤ item_quality.Artifact ∧
    QualityInv (ItemFilter.ctor_serialized E s) := by
  obtain ⟨a1, a2, -⟩ := ItemFilter.setMinQuality_fields E f n
  obtain ⟨b1, b2, -⟩ := ItemFilter.setMaxQuality_fields E f n
  obtain ⟨c0, c1⟩ := clampItemQuality_range (E.item_quality_cast n)
  refine ⟨ItemFilter.ctor_inv, fun _ => ItemFilter.ctor_inv,
    ⟨ItemFilter.setMinQuality_inv E f n h.2.2, a1, ?_⟩,
    ⟨ItemFilter.setMaxQuality_inv E f n h.1, b1, ?_⟩,
    clampItemQuality_eq, ?_, ?_, clampItemQuality_of_range, c0, c1,
    ItemFilter.ctor_serialized_inv E s⟩
  · rw [a2, a1]
  · rw [b2, b1]
  · intro q hq
    rw [clampItemQuality_eq]
    unfold item_quality.Artifact at *
    omega
  · intro q hq
    rw [clampItemQuality_eq]
    unfold item_quality.Ordinary at *
    omega

/-- The invariant on a filter with range 1..3, after out-of-range settings,
after `clear()` on a filter whose range is not well formed, and after a
construction from out-of-range fields; 9 is clamped to Artifact and -2 to
Ordinary. -/
theorem ItemFilter.quality_invariant_witness :
    QualityInv ⟨1, 3, false, 0, []⟩ ∧
    QualityInv (ItemFilter.clear ⟨9, -3, true, 7, []⟩) ∧
    QualityInv (ItemFilter.setMinQuality sample_env ⟨1, 3, false, 0, []⟩ 9) ∧
    QualityInv (ItemFilter.setMaxQuality sample_env ⟨1, 3, false, 0, []⟩ (-2)) ∧
    clampItemQuality 9 = item_quality.Artifact ∧
    clampItemQuality (-2) = item_quality.Ordinary ∧
    QualityInv (ItemFilter.ctor_serialized sample_env "//7/-3/1".toList) :=
  have hf : QualityInv ⟨1, 3, false, 0, []⟩ := by unfold QualityInv; decide
  have h := ItemFilter.quality_invariant sample_env ⟨1, 3, false, 0, []⟩ 9 "//7/-3/1".toList hf
  have h2 := ItemFilter.quality_invariant sample_env ⟨1, 3, false, 0, []⟩ (-2) "//7/-3/1".toList hf
  ⟨hf, h.2.1 ⟨9, -3, true, 7, []⟩, h.2.2.1.1, h2.2.2.2.1.1,
    h.2.2.2.2.2.1 9 (by decide), h.2.2.2.2.2.2.1 (-2) (by decide),
    h.2.2.2.2.2.2.2.2.2.2⟩

/-- C7: for quality levels `q2 < q` in 0..5, `setMinQuality(q)` followed by
`setMaxQuality(q2)` leaves `min_quality == max_quality == q2`, and
`setMaxQuality(q2)` followed by `setMinQuality(q)` leaves
`min_quality == max_quality == q`. -/
theorem ItemFilter.crossing_bounds (E : Env) (f : ItemFilter) (q q2 : Int)
    (hE : E.cast_exact) (h0 : 0 ≤ q2) (hlt : q2 < q) (h5 : q ≤ 5) :
    ((f.setMinQuality E q).setMaxQuality E q2).min_quality = q2 ∧
    ((f.setMinQuality E q).setMaxQuality E q2).max_quality = q2 ∧
    ((f.setMaxQuality E q2).setMinQuality E q).min_quality = q ∧
    ((f.setMaxQuality E q2).setMinQuality E q).max_quality = q := by
  have hq : E.item_quality_cast q = q :=
    hE q (by unfold item_quality.Ordinary; omega) (by unfold item_quality.Artifact; omega)
  have hq2 : E.item_quality_cast q2 = q2 :=
    hE q2 (by unfold item_quality.Ordinary; omega) (by unfold item_quality.Artifact; omega)
  have cq : clampItemQuality q = q :=
    clampItemQuality_of_range q (by unfold item_quality.Ordinary; omega)
      (by unfold item_quality.Artifact; omega)
  have cq2 : clampItemQuality q2 = q2 :=
    clampItemQuality_of_range q2 (by unfold item_quality.Ordinary; omega)
      (by unfold item_quality.Artifact; omega)
  obtain ⟨a1, a2, -⟩ := ItemFilter.setMinQuality_fields E f q
  obtain ⟨b1, b2, -⟩ := ItemFilter.setMaxQuality_fields E (f.setMinQuality E q) q2
  obtain ⟨c1, c2, -⟩ := ItemFilter.setMaxQuality_fields E f q2
  obtain ⟨d1, d2, -⟩ := ItemFilter.setMinQuality_fields E (f.setMaxQuality E q2) q
  rw [hq, cq] at a1 a2 d1 d2
  rw [hq2, cq2] at b1 b2 c1 c2
  rw [a1] at b2
  rw [c1] at d2
  refine ⟨?_, b1, d1, ?_⟩
  · rw [b2]; omega
  · rw [d2]; omega

/-- Crossing bounds with `q = 5` and `q2 = 2` on the cleared filter. -/
theorem ItemFilter.crossing_bounds_witness :
    ((ItemFilter.ctor.setMinQuality sample_env 5).setMaxQuality sample_env 2).min_quality = 2 ∧
    ((ItemFilter.ctor.setMinQuality sample_env 5).setMaxQuality sample_env 2).max_quality = 2 ∧
    ((ItemFilter.ctor.setMaxQuality sample_env 2).setMinQuality sample_env 5).min_quality = 5 ∧
    ((ItemFilter.ctor.setMaxQuality sample_env 2).setMinQuality sample_env 5).max_quality = 5 :=
  ItemFilter.crossing_bounds sample_env ItemFilter.ctor 5 2 sample_env_cast_exact
    (by decide) (by decide) (by decide)

/-- C9: a string whose number of `/`-delimited fields is not 5 gives the
cleared filter, equal to `ItemFilter()`, for which `isEmpty()` is true; the
constructor is a total function, so the construction does not fail. -/
theorem ItemFilter.ctor_serialized_field_count (E : Env) (s : List Char)
    (h : (split_string s '/').length ≠ 5) :
    ItemFilter.ctor_serialized E s = ItemFilter.ctor ∧
      (ItemFilter.ctor_serialized E s).isEmpty = true := by
  have h1 : ItemFilter.ctor_serialized E s = ItemFilter.ctor := by
    unfold ItemFilter.ctor_serialized
    simp [h]
  rw [h1]
  exact ⟨rfl, by decide⟩

/-- A serialization with four fields. -/
theorem ItemFilter.ctor_serialized_field_count_witness :
    (split_string "stone/INORGANIC:GRANITE/0/4".toList '/').length ≠ 5 ∧
      ItemFilter.ctor_serialized sample_env "stone/INORGANIC:GRANITE/0/4".toList = ItemFilter.ctor ∧
      (ItemFilter.ctor_serialized sample_env "stone/INORGANIC:GRANITE/0/4".toList).isEmpty = true :=
  ⟨by decide,
    ItemFilter.ctor_serialized_field_count sample_env "stone/INORGANIC:GRANITE/0/4".toList (by decide)⟩

/-- C2 (evaluation): the serialization `stone//0/4/0` is well formed (its mask
field parses and is what `bitfield_to_string` prints for the parsed mask), but
the filter constructed from it has mask zero and serializes to `//0/4/0`. -/
theorem ItemFilter.serialize_ctor_serialized_mask :
    sample_env.parseJobMaterialCategory 0 "stone".toList = (true, 2 ^ 14) ∧
      sample_env.bitfield_to_string (2 ^ 14) ',' = "stone".toList ∧
      (ItemFilter.ctor_serialized sample_env "stone//0/4/0".toList).mat_mask = 0 ∧
      ItemFilter.serialize sample_env (ItemFilter.ctor_serialized sample_env "stone//0/4/0".toList)
        = "//0/4/0".toList := by
  decide

/-- C3 (evaluation): the one-element list holding the filter with the stone
mask and no other constraint is serialized to `stone//0/4/0`, and
deserializing this string gives one filter whose mask is zero, the cleared
filter. -/
theorem deserialize_serialize_item_filters_mask :
    serialize_item_filters sample_env [⟨0, 4, false, 2 ^ 14, []⟩] = "stone//0/4/0".toList ∧
      deserialize_item_filters sample_env (serialize_item_filters sample_env [⟨0, 4, false, 2 ^ 14, []⟩])
        = [ItemFilter.ctor] ∧
      (ItemFilter.mk 0 4 false (2 ^ 14) []).mat_mask ≠ ItemFilter.ctor.mat_mask := by
  decide

/-- The empty list of filters is serialized to the empty string, which is
deserialized to a list of one cleared filter. -/
theorem deserialize_serialize_item_filters_nil (E : Env) :
    deserialize_item_filters E (serialize_item_filters E []) = [ItemFilter.ctor] := by
  rfl

/-- C8 (evaluation): in `/INORGANIC:GRANITE,NOT_A_MATERIAL/0/4/0` the second
material token cannot be resolved, and the filter constructed from the string
keeps the material of the first token: it is not empty. -/
theorem ItemFilter.ctor_serialized_keeps_materials :
    (sample_env.MaterialInfo_find "NOT_A_MATERIAL".toList).1 = false ∧
      ItemFilter.ctor_serialized sample_env "/INORGANIC:GRANITE,NOT_A_MATERIAL/0/4/0".toList
        = { ItemFilter.ctor with materials := [⟨0, 1⟩] } ∧
      (ItemFilter.ctor_serialized sample_env "/INORGANIC:GRANITE,NOT_A_MATERIAL/0/4/0".toList).isEmpty
        = false := by
  decide

/-! ### The text format without the mask

With a zero mask the two codecs are inverse to each other on well-formed
filters and on non-empty lists of them. -/

theorem split_string_append (a rest : List Char) (sep : Char) (h : sep ∉ a) :
    split_string (a ++ sep :: rest) sep = a :: split_string rest sep := by
  induction a with
  | nil => simp [split_string]
  | cons c cs ih =>
    have hc : ¬ c = sep := fun e => h (by simp [e])
    have hcs : sep ∉ cs := fun e => h (List.mem_cons_of_mem _ e)
    rw [List.cons_append, split_string, if_neg hc, ih hcs]

theorem split_string_no_sep (a : List Char) (sep : Char) (h : sep ∉ a) :
    split_string a sep = [a] := by
  induction a with
  | nil => rfl
  | cons c cs ih =>
    have hc : ¬ c = sep := fun e => h (by simp [e])
    have hcs : sep ∉ cs := fun e => h (List.mem_cons_of_mem _ e)
    rw [split_string, if_neg hc, ih hcs]

theorem split_string_join_strings (sep : Char) (strs : List (List Char)) (hne : strs ≠ [])
    (h : ∀ s ∈ strs, sep ∉ s) : split_string (join_strings sep strs) sep = strs := by
  induction strs with
  | nil => exact absurd rfl hne
  | cons s rest ih =>
    cases rest with
    | nil => exact split_string_no_sep s sep (h s (List.mem_cons_self _ _))
    | cons t rest2 =>
      simp only [join_strings]
      rw [split_string_append _ _ _ (h s (List.mem_cons_self _ _))]
      rw [ih (by simp) (fun x hx => h x (List.mem_cons_of_mem _ hx))]

theorem mem_join_strings (sep c : Char) (strs : List (List Char))
    (h : c ∈ join_strings sep strs) : c = sep ∨ ∃ s ∈ strs, c ∈ s := by
  induction strs with
  | nil => simp [join_strings] at h
  | cons s rest ih =>
    cases rest with
    | nil => exact Or.inr ⟨s, List.mem_cons_self _ _, h⟩
    | cons t rest2 =>
      simp only [join_strings, List.mem_append, List.mem_cons] at h
      rcases h with h | h | h
      · exact Or.inr ⟨s, List.mem_cons_self _ _, h⟩
      · exact Or.inl h
      · rcases ih h with e | ⟨x, hx, hc⟩
        · exact Or.inl e
        · exact Or.inr ⟨x, List.mem_cons_of_mem _ hx, hc⟩

theorem join_strings_ne_nil (sep : Char) (s : List Char) (rest : List (List Char))
    (h : s ≠ []) : join_strings sep (s :: rest) ≠ [] := by
  cases rest with
  | nil => exact h
  | cons t rest2 =>
    simp only [join_strings]
    intro e
    exact h (List.append_eq_nil.mp e).1

theorem quality_digit (n : Int) (h0 : 0 ≤ n) (h5 : n ≤ 5) :
    ∃ c : Char, int_to_string n = [c] ∧ c ≠ '/' ∧ c ≠ ';' ∧ atoi [c] = n := by
  interval_cases n
  · exact ⟨'0', rfl, by decide, by decide, by decide⟩
  · exact ⟨'1', rfl, by decide, by decide, by decide⟩
  · exact ⟨'2', rfl, by decide, by decide, by decide⟩
  · exact ⟨'3', rfl, by decide, by decide, by decide⟩
  · exact ⟨'4', rfl, by decide, by decide, by decide⟩
  · exact ⟨'5', rfl, by decide, by decide, by decide⟩

theorem MaterialInfo.lt_asymm (a b : MaterialInfo) (h : a.lt b = true) : b.lt a = false := by
  unfold MaterialInfo.lt at *
  simp only [Bool.or_eq_true, Bool.and_eq_true, decide_eq_true_eq] at h
  simp only [Bool.or_eq_false_iff, Bool.and_eq_false_iff, decide_eq_false_iff_not]
  omega

theorem set_emplace_append (m : MaterialInfo) (acc : List MaterialInfo)
    (h : ∀ x ∈ acc, x.lt m = true) : set_emplace m acc = acc ++ [m] := by
  induction acc with
  | nil => rfl
  | cons x xs ih =>
    have hx : x.lt m = true := h x (List.mem_cons_self _ _)
    have hmx : m.lt x = false := MaterialInfo.lt_asymm x m hx
    simp only [set_emplace, hmx, hx, if_true, Bool.false_eq_true, if_false, List.cons_append]
    rw [ih (fun y hy => h y (List.mem_cons_of_mem _ hy))]

theorem deserializeMaterials_loop_tokens (E : Env) (rest : List MaterialInfo) :
    ∀ acc : List MaterialInfo, (acc ++ rest).Pairwise (fun a b => a.lt b = true) →
      (∀ m ∈ rest, E.canonical m) →
      deserializeMaterials_loop E (rest.map E.MaterialInfo_getToken) acc = (true, acc ++ rest) := by
  induction rest with
  | nil => intro acc _ _; simp [deserializeMaterials_loop]
  | cons m rest ih =>
    intro acc hp hc
    obtain ⟨hfind, hvalid, -, -⟩ := hc m (List.mem_cons_self _ _)
    have hacc : ∀ x ∈ acc, x.lt m = true := by
      intro x hx
      exact (List.pairwise_append.mp hp).2.2 x hx m (List.mem_cons_self _ _)
    simp only [List.map_cons, deserializeMaterials_loop, hfind, hvalid, Bool.not_true,
      Bool.or_self, Bool.false_eq_true, if_false]
    rw [set_emplace_append m acc hacc]
    have hp2 : ((acc ++ [m]) ++ rest).Pairwise (fun a b => a.lt b = true) := by
      simpa using hp
    rw [ih (acc ++ [m]) hp2 (fun x hx => hc x (List.mem_cons_of_mem _ hx))]
    simp

theorem deserializeMaterials_tokens (E : Env) (mats : List MaterialInfo)
    (hp : mats.Pairwise (fun a b => a.lt b = true)) (hc : ∀ m ∈ mats, E.canonical m) :
    deserializeMaterials E
      (if !mats.isEmpty then join_strings ',' (mats.map E.MaterialInfo_getToken) else []) []
      = (true, mats) := by
  cases mats with
  | nil => rfl
  | cons m rest =>
    have hne : join_strings ',' ((m :: rest).map E.MaterialInfo_getToken) ≠ [] :=
      join_strings_ne_nil ',' _ _ (hc m (List.mem_cons_self _ _)).2.2.1
    have hsplit : split_string (join_strings ',' ((m :: rest).map E.MaterialInfo_getToken)) ','
        = (m :: rest).map E.MaterialInfo_getToken := by
      apply split_string_join_strings
      · simp
      · intro s hs hmem
        obtain ⟨x, hx, rfl⟩ := List.mem_map.mp hs
        exact ((hc x hx).2.2.2 ',' hmem).2.1 rfl
    have hemp : (join_strings ',' ((m :: rest).map E.MaterialInfo_getToken)).isEmpty = false := by
      cases hj : join_strings ',' ((m :: rest).map E.MaterialInfo_getToken) with
      | nil => exact absurd hj hne
      | cons _ _ => rfl
    simp only [List.isEmpty_cons, Bool.not_false, if_true]
    unfold deserializeMaterials
    rw [hemp, hsplit]
    simp only [Bool.false_eq_true, if_false]
    have := deserializeMaterials_loop_tokens E (m :: rest) [] (by simpa using hp) hc
    simpa using this

theorem split_string_five (a b c d e : List Char) (ha : '/' ∉ a) (hb : '/' ∉ b)
    (hc : '/' ∉ c) (hd : '/' ∉ d) (he : '/' ∉ e) :
    split_string (a ++ '/' :: b ++ '/' :: c ++ '/' :: d ++ '/' :: e) '/' = [a, b, c, d, e] := by
  simp only [List.append_assoc, List.cons_append]
  rw [split_string_append _ _ _ ha, split_string_append _ _ _ hb, split_string_append _ _ _ hc,
    split_string_append _ _ _ hd, split_string_no_sep _ _ he]

theorem ItemFilter.eq_of_fields (f g : ItemFilter) (h1 : f.min_quality = g.min_quality)
    (h2 : f.max_quality = g.max_quality) (h3 : f.decorated_only = g.decorated_only)
    (h4 : f.mat_mask = g.mat_mask) (h5 : f.materials = g.materials) : f = g := by
  cases f
  cases g
  simp only at h1 h2 h3 h4 h5
  subst h1 h2 h3 h4 h5
  rfl

theorem materials_field_no_sep (E : Env) (mats : List MaterialInfo)
    (hc : ∀ m ∈ mats, E.canonical m) (c : Char) (hsep : c = '/' ∨ c = ';') :
    c ∉ (if !mats.isEmpty then join_strings ',' (mats.map E.MaterialInfo_getToken) else []) := by
  intro hmem
  split_ifs at hmem
  · rcases mem_join_strings ',' c _ hmem with e | ⟨s, hs, hcs⟩
    · rcases hsep with h | h <;> rw [h] at e <;> exact absurd e (by decide)
    · obtain ⟨x, hx, rfl⟩ := List.mem_map.mp hs
      have := (hc x hx).2.2.2 c hcs
      rcases hsep with h | h
      · exact this.1 h
      · exact this.2.2 h
  · simp at hmem

/-- A well-formed filter with zero mask is serialized to one digit per quality
bound and per flag, after the empty mask field and the joined material
tokens. -/
theorem ItemFilter.serialize_shape (E : Env) (f : ItemFilter)
    (hb : E.bitfield_to_string 0 ',' = []) (hw : f.well_formed E) (hm : f.mat_mask = 0) :
    ∃ cmin cmax cdec : Char,
      f.serialize E = [] ++ '/' ::
        (if !f.materials.isEmpty then join_strings ',' (f.materials.map E.MaterialInfo_getToken)
         else []) ++ '/' :: [cmin] ++ '/' :: [cmax] ++ '/' :: [cdec] ∧
      (cmin ≠ '/' ∧ cmin ≠ ';' ∧ atoi [cmin] = f.min_quality) ∧
      (cmax ≠ '/' ∧ cmax ≠ ';' ∧ atoi [cmax] = f.max_quality) ∧
      (cdec ≠ '/' ∧ cdec ≠ ';' ∧ decide (atoi [cdec] ≠ 0) = f.decorated_only) := by
  obtain ⟨⟨q0, q1, q2⟩, -, -⟩ := hw
  unfold item_quality.Ordinary at q0
  unfold item_quality.Artifact at q2
  obtain ⟨cmin, emin, smin, tmin, amin⟩ := quality_digit f.min_quality q0 (by omega)
  obtain ⟨cmax, emax, smax, tmax, amax⟩ := quality_digit f.max_quality (by omega) q2
  have hdec : ∃ c : Char, int_to_string (if f.decorated_only = true then 1 else 0) = [c] ∧
      c ≠ '/' ∧ c ≠ ';' ∧ decide (atoi [c] ≠ 0) = f.decorated_only := by
    cases f.decorated_only
    · exact ⟨'0', rfl, by decide, by decide, by decide⟩
    · exact ⟨'1', rfl, by decide, by decide, by decide⟩
  obtain ⟨cdec, edec, sdec, tdec, adec⟩ := hdec
  refine ⟨cmin, cmax, cdec, ?_, ⟨smin, tmin, amin⟩, ⟨smax, tmax, amax⟩, ⟨sdec, tdec, adec⟩⟩
  unfold ItemFilter.serialize
  rw [hm, hb, emin, emax, edec]

/-- With a zero mask, constructing a filter from the serialization of a
well-formed filter gives the filter back. -/
theorem ItemFilter.ctor_serialized_serialize (E : Env) (f : ItemFilter) (hE : E.cast_exact)
    (hb : E.bitfield_to_string 0 ',' = []) (hw : f.well_formed E) (hm : f.mat_mask = 0) :
    ItemFilter.ctor_serialized E (f.serialize E) = f := by
  obtain ⟨cmin, cmax, cdec, hser, ⟨smin, -, amin⟩, ⟨smax, -, amax⟩, ⟨sdec, -, adec⟩⟩ :=
    ItemFilter.serialize_shape E f hb hw hm
  obtain ⟨⟨q0, q1, q2⟩, hp, hc⟩ := hw
  have htok : split_string (f.serialize E) '/' =
      [[], (if !f.materials.isEmpty then join_strings ',' (f.materials.map E.MaterialInfo_getToken)
         else []), [cmin], [cmax], [cdec]] := by
    rw [hser]
    exact split_string_five _ _ _ _ _ (by simp)
      (materials_field_no_sep E f.materials hc '/' (Or.inl rfl))
      (by simpa using smin.symm) (by simpa using smax.symm) (by simpa using sdec.symm)
  have hmats := deserializeMaterials_tokens E f.materials hp hc
  have hmask : deserializeMaterialMask E [] ItemFilter.ctor.mat_mask = true := rfl
  have hres : ItemFilter.ctor_serialized E (f.serialize E) =
      { ItemFilter.setMaxQuality E
          (ItemFilter.setMinQuality E { ItemFilter.ctor with materials := f.materials }
            f.min_quality) f.max_quality with decorated_only := f.decorated_only } := by
    unfold ItemFilter.ctor_serialized
    rw [htok]
    simp only [List.length_cons, List.length_nil, List.getD_cons_zero, List.getD_cons_succ]
    rw [hmask]
    have hm0 : ItemFilter.ctor.materials = [] := rfl
    rw [hm0, hmats, amin, amax, adec]
    simp
  rw [hres]
  obtain ⟨a1, a2, a3, a4, a5⟩ := ItemFilter.setMinQuality_fields E
    { ItemFilter.ctor with materials := f.materials } f.min_quality
  obtain ⟨b1, b2, b3, b4, b5⟩ := ItemFilter.setMaxQuality_fields E
    (ItemFilter.setMinQuality E { ItemFilter.ctor with materials := f.materials } f.min_quality)
    f.max_quality
  have cmn : clampItemQuality (E.item_quality_cast f.min_quality) = f.min_quality := by
    rw [hE _ q0 (le_trans q1 q2)]
    exact clampItemQuality_of_range _ q0 (le_trans q1 q2)
  have cmx : clampItemQuality (E.item_quality_cast f.max_quality) = f.max_quality := by
    rw [hE _ (le_trans q0 q1) q2]
    exact clampItemQuality_of_range _ (le_trans q0 q1) q2
  rw [cmn] at a1 a2
  rw [cmx] at b1 b2
  apply ItemFilter.eq_of_fields
  · show (ItemFilter.setMaxQuality E _ f.max_quality).min_quality = f.min_quality
    rw [b2, a1]
    omega
  · exact b1
  · rfl
  · show (ItemFilter.setMaxQuality E _ f.max_quality).mat_mask = f.mat_mask
    rw [b4, a4, hm]
    rfl
  · show (ItemFilter.setMaxQuality E _ f.max_quality).materials = f.materials
    rw [b5, a5]

theorem ItemFilter.serialize_no_semicolon (E : Env) (f : ItemFilter)
    (hb : E.bitfield_to_string 0 ',' = []) (hw : f.well_formed E) (hm : f.mat_mask = 0) :
    ';' ∉ f.serialize E := by
  obtain ⟨cmin, cmax, cdec, hser, ⟨-, tmin, -⟩, ⟨-, tmax, -⟩, ⟨-, tdec, -⟩⟩ :=
    ItemFilter.serialize_shape E f hb hw hm
  have hfield := materials_field_no_sep E f.materials hw.2.2 ';' (Or.inr rfl)
  rw [hser]
  simp only [List.nil_append, List.append_assoc, List.cons_append, List.mem_cons, List.mem_append,
    List.mem_singleton, List.not_mem_nil, or_false, not_or]
  exact ⟨by decide, hfield, by decide, fun e => tmin e.symm, by decide, fun e => tmax e.symm,
    by decide, fun e => tdec e.symm⟩

/-- With zero masks, deserializing the serialization of a non-empty list of
well-formed filters gives the list back, in the same order. -/
theorem deserialize_serialize_item_filters (E : Env) (F : List ItemFilter) (hE : E.cast_exact)
    (hb : E.bitfield_to_string 0 ',' = []) (hne : F ≠ [])
    (hw : ∀ f ∈ F, f.well_formed E ∧ f.mat_mask = 0) :
    deserialize_item_filters E (serialize_item_filters E F) = F := by
  unfold deserialize_item_filters serialize_item_filters
  rw [split_string_join_strings ';' _ (by simpa using hne)]
  · rw [List.map_map]
    conv_rhs => rw [← List.map_id F]
    apply List.map_congr_left
    intro f hf
    exact ItemFilter.ctor_serialized_serialize E f hE hb (hw f hf).1 (hw f hf).2
  · intro s hs
    obtain ⟨f, hf, rfl⟩ := List.mem_map.mp hs
    exact ItemFilter.serialize_no_semicolon E f hb (hw f hf).1 (hw f hf).2

theorem sample_env_canonical (m : MaterialInfo)
    (h : m ∈ [(⟨0, 1⟩ : MaterialInfo), ⟨0, 2⟩, ⟨0, 3⟩]) : sample_env.canonical m := by
  simp only [List.mem_cons, List.mem_singleton, List.not_mem_nil, or_false] at h
  rcases h with h | h | h <;> subst h <;> unfold Env.canonical <;> decide

/-- The list codec on a concrete list of two filters without mask. -/
theorem deserialize_serialize_item_filters_sample :
    serialize_item_filters sample_env [⟨1, 5, true, 0, [⟨0, 1⟩, ⟨0, 3⟩]⟩, ItemFilter.ctor]
      = "/INORGANIC:GRANITE,INORGANIC:IRON/1/5/1;//0/4/0".toList ∧
    deserialize_item_filters sample_env
        (serialize_item_filters sample_env [⟨1, 5, true, 0, [⟨0, 1⟩, ⟨0, 3⟩]⟩, ItemFilter.ctor])
      = [⟨1, 5, true, 0, [⟨0, 1⟩, ⟨0, 3⟩]⟩, ItemFilter.ctor] := by
  refine ⟨by decide, ?_⟩
  apply deserialize_serialize_item_filters sample_env _ sample_env_cast_exact (by decide) (by simp)
  intro f hf
  simp only [List.mem_cons, List.mem_singleton, List.not_mem_nil, or_false] at hf
  rcases hf with hf | hf <;> subst hf
  · refine ⟨⟨by unfold QualityInv; decide, by decide, ?_⟩, rfl⟩
    intro m hm
    apply sample_env_canonical
    simp only [List.mem_cons, List.mem_singleton, List.not_mem_nil, or_false] at hm ⊢
    rcases hm with hm | hm <;> simp [hm]
  · refine ⟨⟨by unfold QualityInv; decide, by decide, ?_⟩, rfl⟩
    intro m hm
    exact absurd hm (by simp [ItemFilter.ctor, ItemFilter.clear])

/-- When the first token of a non-empty material list cannot be resolved,
nothing has been emplaced and the filter is the cleared one. -/
theorem ItemFilter.ctor_serialized_first_token (E : Env) (s : List Char)
    (mask field minq maxq dec t : List Char) (rest : List (List Char))
    (hs : split_string s '/' = [mask, field, minq, maxq, dec]) (hne : field ≠ [])
    (hf : split_string field ',' = t :: rest)
    (ht : (E.MaterialInfo_find t).1 = false ∨ E.MaterialInfo_isValid (E.MaterialInfo_find t).2 = false) :
    ItemFilter.ctor_serialized E s = ItemFilter.ctor := by
  have hloop : deserializeMaterials_loop E (t :: rest) [] = (false, []) := by
    rcases ht with h | h <;> simp [deserializeMaterials_loop, h]
  have hd : (deserializeMaterials E field []).2 = [] := by
    unfold deserializeMaterials
    split_ifs
    · rfl
    · rw [hf, hloop]
  have hd1 : field.isEmpty = false → (deserializeMaterials E field []).1 = false := by
    intro he
    unfold deserializeMaterials
    rw [he, hf, hloop]
    rfl
  have hfe : field.isEmpty = false := by
    cases field with
    | nil => exact absurd rfl hne
    | cons _ _ => rfl
  unfold ItemFilter.ctor_serialized
  rw [hs]
  simp only [List.length_cons, List.length_nil, List.getD_cons_zero, List.getD_cons_succ]
  have hm0 : ItemFilter.ctor.materials = [] := rfl
  rw [hm0, hd, hd1 hfe]
  simp only [Nat.reduceAdd, ne_eq, not_true_eq_false, if_false, Bool.not_false, if_true]
  split_ifs <;> rfl

/-! ## Theorems: reservation tables -/

theorem umap_find_erase {V : Type} (m : List (Int × V)) (k key : Int) :
    umap_find (umap_erase m k) key = if key = k then none else umap_find m key := by
  induction m with
  | nil => simp [umap_erase, umap_find]
  | cons e rest ih =>
    obtain ⟨a, v⟩ := e
    unfold umap_erase at ih ⊢
    by_cases hak : a = k
    · subst hak
      simp only [List.filter, ne_eq, not_true_eq_false, decide_False]
      rw [ih]
      by_cases hk : key = a
      · simp [hk]
      · have : ¬ a = key := fun h => hk h.symm
        simp [hk, umap_find, this]
    · simp only [List.filter, ne_eq, hak, not_false_eq_true, decide_True]
      simp only [umap_find]
      rw [ih]
      by_cases hk : a = key
      · have : ¬ key = k := fun h => hak (hk.trans h)
        simp [hk, this]
      · simp [hk]

theorem umap_find_assign {V : Type} (m : List (Int × V)) (k key : Int) (v : V) :
    umap_find (umap_assign m k v) key =
      if key = k then (umap_find m k).map (fun _ => v) else umap_find m key := by
  induction m with
  | nil => simp [umap_assign, umap_find]
  | cons e rest ih =>
    obtain ⟨a, w⟩ := e
    show umap_find ((if a = k then (a, v) else (a, w)) :: umap_assign rest k v) key = _
    by_cases hak : a = k
    · rw [if_pos hak]
      subst hak
      simp only [umap_find, if_true]
      rw [ih]
      by_cases hk : a = key
      · simp [hk]
      · have : ¬ key = a := fun h => hk h.symm
        simp [hk, this]
    · rw [if_neg hak]
      simp only [umap_find, hak, if_false]
      rw [ih]
      by_cases hk : a = key
      · have : ¬ key = k := fun h => hak (hk.trans h)
        simp [hk, this]
      · simp [hk]

theorem linear_index_not_mem {α : Type} [DecidableEq α] (l : List α) (z : α) (h : z ∉ l) :
    linear_index l z = -1 := by
  induction l with
  | nil => rfl
  | cons x xs ih =>
    have hx : ¬ x = z := fun e => h (by simp [e])
    have hz : z ∉ xs := fun e => h (List.mem_cons_of_mem _ e)
    simp [linear_index, hx, ih hz]

theorem linear_index_mem {α : Type} [DecidableEq α] (l : List α) (z : α) (h : z ∈ l) :
    0 ≤ linear_index l z ∧ linear_index l z < l.length := by
  induction l with
  | nil => simp at h
  | cons x xs ih =>
    by_cases hx : x = z
    · simp [linear_index, hx]
    · have hz : z ∈ xs := by
        rcases List.mem_cons.mp h with e | e
        · exact absurd e.symm hx
        · exact e
      obtain ⟨i0, i1⟩ := ih hz
      have hneg : ¬ linear_index xs z < 0 := by omega
      simp only [linear_index, hx, if_false, hneg, List.length_cons]
      constructor
      · omega
      · push_cast
        omega

theorem vector_erase_at_linear_index (l : List Int) (z : Int) :
    vector_erase_at l (linear_index l z) = l.erase z := by
  induction l with
  | nil => rfl
  | cons x xs ih =>
    by_cases hx : x = z
    · subst hx
      simp [linear_index, vector_erase_at]
    · have hxb : (x == z) = false := by simpa using hx
      rw [List.erase_cons, hxb]
      simp only [Bool.false_eq_true, if_false]
      by_cases hz : z ∈ xs
      · obtain ⟨i0, i1⟩ := linear_index_mem xs z hz
        have hneg : ¬ linear_index xs z < 0 := by omega
        rw [← ih]
        simp only [linear_index, hx, if_false, hneg, vector_erase_at, List.length_cons]
        have c1 : 0 ≤ linear_index xs z + 1 ∧ linear_index xs z + 1 < ((xs.length + 1 : Nat) : Int) := by
          push_cast
          omega
        have c2 : 0 ≤ linear_index xs z ∧ linear_index xs z < (xs.length : Int) := ⟨i0, i1⟩
        rw [if_pos c1, if_pos c2]
        have : (linear_index xs z + 1).toNat = (linear_index xs z).toNat + 1 := by omega
        rw [this]
        rfl
      · rw [List.erase_of_not_mem hz]
        have := linear_index_not_mem xs z hz
        simp [linear_index, hx, this, vector_erase_at]

theorem entries_erase (m : List (Int × List Int)) (k key : Int) :
    entries (umap_erase m k) key = if key = k then [] else entries m key := by
  unfold entries
  rw [umap_find_erase]
  split_ifs <;> rfl

theorem entries_assign (m : List (Int × List Int)) (k key : Int) (v ids : List Int)
    (h : umap_find m k = some ids) :
    entries (umap_assign m k v) key = if key = k then v else entries m key := by
  unfold entries
  rw [umap_find_assign, h]
  split_ifs <;> rfl

theorem clear_reservation_step_entries (zone_id hfid : Int) (pending : List (Int × List Int))
    (ids : List Int) (h : umap_find pending hfid = some ids) (o : Int) :
    entries (if (vector_erase_at ids (linear_index ids zone_id)).isEmpty then umap_erase pending hfid
      else umap_assign pending hfid (vector_erase_at ids (linear_index ids zone_id))) o
      = if o = hfid then ids.erase zone_id else entries pending o := by
  rw [vector_erase_at_linear_index]
  by_cases he : (ids.erase zone_id).isEmpty = true
  · rw [if_pos he, entries_erase]
    have : ids.erase zone_id = [] := List.isEmpty_iff.mp he
    rw [this]
  · rw [if_neg he, entries_assign _ _ _ _ ids h]

theorem clear_reservation_loop_spec (zone_id : Int) (hfids : List Int) :
    ∀ pending : List (Int × List Int), (∀ o, (entries pending o).Nodup) →
      (∀ o, (entries (clear_reservation_loop zone_id hfids pending) o).Nodup) ∧
      ∀ o z, z ∈ entries (clear_reservation_loop zone_id hfids pending) o ↔
        (z ∈ entries pending o ∧ ¬ (z = zone_id ∧ o ∈ hfids)) := by
  induction hfids with
  | nil =>
    intro pending hn
    exact ⟨hn, fun o z => by simp [clear_reservation_loop]⟩
  | cons hfid rest ih =>
    intro pending hn
    cases hf : umap_find pending hfid with
    | none =>
      have hl : clear_reservation_loop zone_id (hfid :: rest) pending
          = clear_reservation_loop zone_id rest pending := by
        simp [clear_reservation_loop, hf]
      rw [hl]
      obtain ⟨i1, i2⟩ := ih pending hn
      refine ⟨i1, fun o z => ?_⟩
      rw [i2]
      have hempty : entries pending hfid = [] := by simp [entries, hf]
      constructor
      · rintro ⟨hz, hno⟩
        refine ⟨hz, ?_⟩
        rintro ⟨e1, e2⟩
        rcases List.mem_cons.mp e2 with e | e
        · rw [e, hempty] at hz
          simp at hz
        · exact hno ⟨e1, e⟩
      · rintro ⟨hz, hno⟩
        exact ⟨hz, fun ⟨e1, e2⟩ => hno ⟨e1, List.mem_cons_of_mem _ e2⟩⟩
    | some ids =>
      have hl : clear_reservation_loop zone_id (hfid :: rest) pending
          = clear_reservation_loop zone_id rest
              (if (vector_erase_at ids (linear_index ids zone_id)).isEmpty then umap_erase pending hfid
               else umap_assign pending hfid (vector_erase_at ids (linear_index ids zone_id))) := by
        simp only [clear_reservation_loop, hf]
        split_ifs <;> rfl
      rw [hl]
      have hstep := clear_reservation_step_entries zone_id hfid pending ids hf
      have hids : entries pending hfid = ids := by simp [entries, hf]
      have hidsn : ids.Nodup := hids ▸ hn hfid
      have hn2 : ∀ o, (entries (if (vector_erase_at ids (linear_index ids zone_id)).isEmpty then
          umap_erase pending hfid
          else umap_assign pending hfid (vector_erase_at ids (linear_index ids zone_id))) o).Nodup := by
        intro o
        rw [hstep]
        split_ifs
        · exact hidsn.erase zone_id
        · exact hn o
      obtain ⟨i1, i2⟩ := ih _ hn2
      refine ⟨i1, fun o z => ?_⟩
      rw [i2, hstep]
      by_cases ho : o = hfid
      · subst ho
        rw [if_pos rfl, hidsn.mem_erase_iff, hids]
        constructor
        · rintro ⟨⟨hne, hz⟩, -⟩
          exact ⟨hz, fun ⟨e1, _⟩ => hne e1⟩
        · rintro ⟨hz, hno⟩
          have hne : z ≠ zone_id := fun e => hno ⟨e, List.mem_cons_self _ _⟩
          exact ⟨⟨hne, hz⟩, fun ⟨e1, _⟩ => hne e1⟩
      · rw [if_neg ho]
        constructor
        · rintro ⟨hz, hno⟩
          refine ⟨hz, ?_⟩
          rintro ⟨e1, e2⟩
          rcases List.mem_cons.mp e2 with e | e
          · exact ho e
          · exact hno ⟨e1, e⟩
        · rintro ⟨hz, hno⟩
          exact ⟨hz, fun ⟨e1, e2⟩ => hno ⟨e1, List.mem_cons_of_mem _ e2⟩⟩

theorem clear_reservation_tables (s : State) (zone_id : Int) (zone : Option Int) :
    (clear_reservation s zone_id zone).pending_reassignment
        = (match umap_find s.reserved_zones zone_id with
           | none => s.pending_reassignment
           | some hfids => clear_reservation_loop zone_id hfids s.pending_reassignment) ∧
      (clear_reservation s zone_id zone).reserved_zones
        = (match umap_find s.reserved_zones zone_id with
           | none => s.reserved_zones
           | some _ => umap_erase s.reserved_zones zone_id) := by
  unfold clear_reservation
  cases umap_find s.reserved_zones zone_id with
  | none => exact ⟨rfl, rfl⟩
  | some hfids =>
    dsimp only
    cases zone with
    | some z => exact ⟨rfl, rfl⟩
    | none =>
      dsimp only
      cases (find_civzone _ zone_id) with
      | none => exact ⟨rfl, rfl⟩
      | some b => exact ⟨rfl, rfl⟩

theorem clear_reservation_preserves (s : State) (zone_id : Int) (zone : Option Int)
    (h : Transpose s) (hn : PendingNodup s) :
    Transpose (clear_reservation s zone_id zone) ∧ PendingNodup (clear_reservation s zone_id zone) := by
  obtain ⟨hp, hr⟩ := clear_reservation_tables s zone_id zone
  unfold Transpose PendingNodup
  rw [hp, hr]
  cases hf : umap_find s.reserved_zones zone_id with
  | none => exact ⟨h, hn⟩
  | some hfids =>
    dsimp only
    obtain ⟨l1, l2⟩ := clear_reservation_loop_spec zone_id hfids s.pending_reassignment hn
    refine ⟨fun o z => ?_, l1⟩
    rw [l2, entries_erase]
    have hz0 : entries s.reserved_zones zone_id = hfids := by simp [entries, hf]
    by_cases hz : z = zone_id
    · subst hz
      rw [if_pos rfl, h o z, hz0]
      simp
    · rw [if_neg hz, h o z]
      constructor
      · exact fun hh => hh.1
      · exact fun hh => ⟨hh, fun e => hz e.1⟩

theorem SameButOwners.refl (s : State) : SameButOwners s s :=
  ⟨rfl, rfl, rfl⟩

theorem SameButOwners.trans {s t r : State} (h1 : SameButOwners s t) (h2 : SameButOwners t r) :
    SameButOwners s r := by
  obtain ⟨a1, a2, a3⟩ := h1
  obtain ⟨b1, b2, b3⟩ := h2
  refine ⟨?_, b2.trans a2, b3.trans a3⟩
  have e : ({ r with civzones := s.civzones, units := s.units } : State)
      = { ({ r with civzones := t.civzones, units := t.units } : State) with
          civzones := s.civzones, units := s.units } := rfl
  rw [e, b1, a1]

theorem setOwner_same (s : State) (zone : building_civzonest) (u : unit) :
    SameButOwners s (setOwner s zone u) := by
  unfold setOwner
  split_ifs with h
  · exact SameButOwners.refl s
  · refine ⟨rfl, ?_, ?_⟩
    · dsimp only
      rw [List.map_map]
      apply List.map_congr_left
      intro b _
      show ((if b.id = zone.id then { b with assigned_unit := some u.id } else b).id,
        (if b.id = zone.id then { b with assigned_unit := some u.id } else b).active,
        (if b.id = zone.id then { b with assigned_unit := some u.id } else b).type) = _
      split_ifs <;> rfl
    · dsimp only
      rw [List.map_map]
      apply List.map_congr_left
      intro x _
      simp only [Function.comp]
      split_ifs <;> rfl

theorem assign_nobles_units_eq (s : State) (zone : building_civzonest) (code : String)
    (us : List unit) :
    assign_nobles_units s zone code us =
      match us.find? (assign_nobles_accepts s zone code) with
      | none => s
      | some u => setOwner s zone u := by
  induction us with
  | nil => rfl
  | cons u rest ih =>
    have ha : assign_nobles_accepts s zone code u =
        ((u.isCitizen || u.isResident) && !assign_nobles_found s zone code u.owned_buildings) := rfl
    rw [assign_nobles_units, List.find?_cons, ha, ih]
    cases hc : u.isCitizen <;> cases hr : u.isResident <;>
      cases hf : assign_nobles_found s zone code u.owned_buildings <;> simp

theorem assign_nobles_zone_cases (s : State) (zone_id : Int) (code : String) :
    assign_nobles_zone s zone_id code = s ∨
      ∃ zone u, find_civzone s zone_id = some zone ∧
        assign_nobles_zone s zone_id code = setOwner s zone u := by
  unfold assign_nobles_zone
  cases hz : find_civzone s zone_id with
  | none => exact Or.inl rfl
  | some zone =>
    dsimp only
    split_ifs
    · exact Or.inl rfl
    · rw [assign_nobles_units_eq]
      cases (getUnitsByNobleRole s code).find? (assign_nobles_accepts s zone code) with
      | none => exact Or.inl rfl
      | some u => exact Or.inr ⟨zone, u, rfl, rfl⟩

theorem assign_nobles_zone_same (s : State) (zone_id : Int) (code : String) :
    SameButOwners s (assign_nobles_zone s zone_id code) := by
  rcases assign_nobles_zone_cases s zone_id code with h | ⟨zone, u, -, h⟩
  · rw [h]; exact SameButOwners.refl s
  · rw [h]; exact setOwner_same s zone u

theorem assign_nobles_fold_same (items : List (Int × String)) :
    ∀ s : State, SameButOwners s (items.foldl (fun s e => assign_nobles_zone s e.1 e.2) s) := by
  induction items with
  | nil => exact fun s => SameButOwners.refl s
  | cons e rest ih =>
    intro s
    exact SameButOwners.trans (assign_nobles_zone_same s e.1 e.2) (ih _)

theorem assign_nobles_same (s : State) : SameButOwners s (assign_nobles s) :=
  assign_nobles_fold_same _ s

theorem do_cycle_same (s : State) :
    (do_cycle s).reserved_zones = s.reserved_zones ∧
    (do_cycle s).pending_reassignment = s.pending_reassignment ∧
    (do_cycle s).noble_zones = s.noble_zones ∧
    (do_cycle s).civzones.map (fun b => (b.id, b.active, b.type))
      = s.civzones.map (fun b => (b.id, b.active, b.type)) ∧
    (do_cycle s).last_known_assignments_bedroom = [] ∧
    (do_cycle s).last_known_assignments_office = [] ∧
    (do_cycle s).last_known_assignments_dining = [] ∧
    (do_cycle s).last_known_assignments_tomb = [] ∧
    (do_cycle s).cycle_timestamp = s.frame_counter := by
  have h := assign_nobles_same { s with cycle_timestamp := s.frame_counter }
  obtain ⟨h1, h2, -⟩ := h
  have e1 := congrArg State.reserved_zones h1
  have e2 := congrArg State.pending_reassignment h1
  have e3 := congrArg State.noble_zones h1
  have e4 := congrArg State.cycle_timestamp h1
  exact ⟨e1, e2, e3, h2, rfl, rfl, rfl, rfl, e4⟩

theorem preserve_rooms_setFeature_tables (s : State) (enabled : Bool) (feature : String) :
    (preserve_rooms_setFeature s enabled feature).2.reserved_zones = s.reserved_zones ∧
      (preserve_rooms_setFeature s enabled feature).2.pending_reassignment = s.pending_reassignment := by
  unfold preserve_rooms_setFeature
  dsimp only
  split_ifs
  · exact ⟨(do_cycle_same _).1, (do_cycle_same _).2.1⟩
  · exact ⟨rfl, rfl⟩
  · exact ⟨rfl, rfl⟩
  · exact ⟨rfl, rfl⟩

theorem empty_tables_inv (s : State) (hp : s.pending_reassignment = [])
    (hr : s.reserved_zones = []) : Transpose s ∧ PendingNodup s := by
  unfold Transpose PendingNodup
  rw [hp, hr]
  exact ⟨fun o z => by simp [entries, umap_find], fun o => by simp [entries, umap_find]⟩

theorem resetFeatureState_preserves (s : State) (feature : String)
    (h : Transpose s) (hn : PendingNodup s) :
    Transpose (preserve_rooms_resetFeatureState s feature).2 ∧
      PendingNodup (preserve_rooms_resetFeatureState s feature).2 := by
  unfold preserve_rooms_resetFeatureState
  split_ifs
  · exact empty_tables_inv _ rfl rfl
  · exact ⟨h, hn⟩
  · exact ⟨h, hn⟩

theorem TableOp_apply_preserves (s : State) (op : TableOp)
    (h : Transpose s) (hn : PendingNodup s) :
    Transpose (TableOp.apply s op) ∧ PendingNodup (TableOp.apply s op) := by
  cases op with
  | clear_reservation zone_id zone => exact clear_reservation_preserves s zone_id zone h hn
  | resetFeatureState feature => exact resetFeatureState_preserves s feature h hn
  | clearReservation selected =>
    cases selected with
    | none => exact ⟨h, hn⟩
    | some zone => exact clear_reservation_preserves s zone (some zone) h hn
  | cycle =>
    show Transpose (do_cycle s) ∧ PendingNodup (do_cycle s)
    unfold Transpose PendingNodup
    rw [(do_cycle_same s).1, (do_cycle_same s).2.1]
    exact ⟨h, hn⟩
  | setFeature enabled feature =>
    show Transpose (preserve_rooms_setFeature s enabled feature).2 ∧
      PendingNodup (preserve_rooms_setFeature s enabled feature).2
    unfold Transpose PendingNodup
    rw [(preserve_rooms_setFeature_tables s enabled feature).1,
      (preserve_rooms_setFeature_tables s enabled feature).2]
    exact ⟨h, hn⟩

theorem TableOp_run_preserves (ops : List TableOp) :
    ∀ s : State, Transpose s → PendingNodup s →
      Transpose (ops.foldl TableOp.apply s) ∧ PendingNodup (ops.foldl TableOp.apply s) := by
  induction ops with
  | nil => exact fun s h hn => ⟨h, hn⟩
  | cons op rest ih =>
    intro s h hn
    obtain ⟨h1, h2⟩ := TableOp_apply_preserves s op h hn
    exact ih _ h1 h2

/-- C10 (as stated): in the state where zone 7 is held for occupant 1 and is
listed twice under occupant 1, the two tables are transposes of each other,
and after `clear_reservation(7)` they are not: zone 7 is still listed under
occupant 1, while `reserved_zones` has no entry for zone 7. -/
theorem transpose_lost_with_repeated_zone :
    Transpose sample_state_twice ∧ ¬ Transpose (clear_reservation sample_state_twice 7 none) := by
  constructor
  · intro o z
    show z ∈ entries [(1, [7, 7])] o ↔ o ∈ entries [(7, [1])] z
    by_cases ho : o = 1 <;> by_cases hz : z = 7 <;>
      simp [entries, umap_find, ho, hz, eq_comm]
  · intro h
    have h1 := (h 1 7).mp (by decide)
    revert h1
    decide

/-- C10 (amended): from every state in which the two tables are transposes of
each other and no list of `pending_reassignment` names a zone twice,
`clear_reservation(z0)` gives a state with the same two properties, for every
zone id `z0`, and so does `resetFeatureState`; hence the tables are transposes
of each other after any sequence of table operations that starts from empty
tables. -/
theorem transpose_invariant (s s0 : State) (zone_id : Int) (zone : Option Int)
    (feature : String) (ops : List TableOp)
    (h : Transpose s) (hn : PendingNodup s)
    (hp : s0.pending_reassignment = []) (hr : s0.reserved_zones = []) :
    (Transpose (clear_reservation s zone_id zone) ∧
      PendingNodup (clear_reservation s zone_id zone)) ∧
    (Transpose (preserve_rooms_resetFeatureState s feature).2 ∧
      PendingNodup (preserve_rooms_resetFeatureState s feature).2) ∧
    Transpose (ops.foldl TableOp.apply s0) :=
  ⟨clear_reservation_preserves s zone_id zone h hn,
    resetFeatureState_preserves s feature h hn,
    (TableOp_run_preserves ops s0 (empty_tables_inv s0 hp hr).1 (empty_tables_inv s0 hp hr).2).1⟩

/-- The invariant on the state with one reservation, where `clear_reservation`
empties both tables. -/
theorem transpose_invariant_witness :
    (Transpose sample_state ∧ PendingNodup sample_state) ∧
    (clear_reservation sample_state 7 none).pending_reassignment = [] ∧
    (clear_reservation sample_state 7 none).reserved_zones = [] ∧
    Transpose (clear_reservation sample_state 7 none) ∧
    Transpose (preserve_rooms_resetFeatureState sample_state "track-roles").2 ∧
    Transpose ([TableOp.clear_reservation 7 none, TableOp.resetFeatureState "track-missions"].foldl
      TableOp.apply (clear_track_missions_state sample_state)) :=
  have ht : Transpose sample_state := by
    intro o z
    show z ∈ entries [(1, [7])] o ↔ o ∈ entries [(7, [1])] z
    by_cases ho : o = 1 <;> by_cases hz : z = 7 <;>
      simp [entries, umap_find, ho, hz, eq_comm]
  have hn : PendingNodup sample_state := by
    intro o
    show (entries [(1, [7])] o).Nodup
    by_cases ho : o = 1 <;> simp [entries, umap_find, ho, eq_comm]
  have h := transpose_invariant sample_state (clear_track_missions_state sample_state) 7 none
    "track-roles" [TableOp.clear_reservation 7 none, TableOp.resetFeatureState "track-missions"]
    ht hn rfl rfl
  ⟨⟨ht, hn⟩, by decide, by decide, h.1.1, h.2.1.1, h.2.2⟩

/-! ## Theorems: effect and frame of `clear_reservation` -/

theorem find_map_same_id (l : List building_civzonest) (f : building_civzonest → building_civzonest)
    (hf : ∀ b, (f b).id = b.id) (z : Int) :
    (l.map f).find? (fun b => decide (b.id = z)) = (l.find? (fun b => decide (b.id = z))).map f := by
  induction l with
  | nil => rfl
  | cons a rest ih =>
    simp only [List.map_cons, List.find?_cons, hf]
    by_cases ha : a.id = z
    · simp [ha]
    · simp [ha, ih]

theorem map_activate_of_absent (l : List building_civzonest) (z : Int)
    (h : l.find? (fun b => decide (b.id = z)) = none) :
    l.map (fun b => if b.id = z then { b with active := true } else b) = l := by
  have h2 : ∀ b ∈ l, ¬ b.id = z := by
    intro b hb
    have := List.find?_eq_none.mp h b hb
    simpa using this
  conv_rhs => rw [← List.map_id l]
  apply List.map_congr_left
  intro b hb
  simp [h2 b hb]

theorem clear_reservation_absent (s : State) (zone_id : Int) (zone : Option Int)
    (h : umap_find s.reserved_zones zone_id = none) : clear_reservation s zone_id zone = s := by
  unfold clear_reservation
  rw [h]

theorem clear_reservation_civzones (s : State) (zone_id : Int) (zone : Option Int)
    (hfids : List Int) (h : umap_find s.reserved_zones zone_id = some hfids)
    (hz : zone = none ∨ zone = some zone_id) :
    (clear_reservation s zone_id zone).civzones =
      s.civzones.map (fun b => if b.id = zone_id then { b with active := true } else b) := by
  unfold clear_reservation
  rw [h]
  dsimp only
  rcases hz with hz | hz
  · subst hz
    dsimp only
    cases hf : find_civzone
        { s with
          pending_reassignment := clear_reservation_loop zone_id hfids s.pending_reassignment,
          reserved_zones := umap_erase s.reserved_zones zone_id } zone_id with
    | none =>
      dsimp only [Option.map]
      exact (map_activate_of_absent s.civzones zone_id hf).symm
    | some b =>
      have hb : b.id = zone_id := by
        have := List.find?_some hf
        simpa using this
      dsimp only [Option.map]
      rw [hb]
      rfl
  · subst hz
    rfl

theorem clear_reservation_reserved_find (s : State) (zone_id : Int) (zone : Option Int) (key : Int) :
    umap_find (clear_reservation s zone_id zone).reserved_zones key =
      if key = zone_id then none else umap_find s.reserved_zones key := by
  rw [(clear_reservation_tables s zone_id zone).2]
  cases hf : umap_find s.reserved_zones zone_id with
  | none =>
    dsimp only
    split_ifs with hk
    · rw [hk, hf]
    · rfl
  | some hfids =>
    dsimp only
    exact umap_find_erase _ _ _

theorem clear_reservation_loop_no_empty (zone_id : Int) (hfids : List Int) :
    ∀ (pending : List (Int × List Int)) (o : Int),
      (o ∈ hfids ∨ umap_find pending o ≠ some []) →
      umap_find (clear_reservation_loop zone_id hfids pending) o ≠ some [] := by
  induction hfids with
  | nil =>
    intro pending o h
    rcases h with h | h
    · simp at h
    · exact h
  | cons hfid rest ih =>
    intro pending o h
    cases hf : umap_find pending hfid with
    | none =>
      have hl : clear_reservation_loop zone_id (hfid :: rest) pending
          = clear_reservation_loop zone_id rest pending := by
        simp [clear_reservation_loop, hf]
      rw [hl]
      apply ih
      rcases h with h | h
      · rcases List.mem_cons.mp h with e | e
        · right
          rw [e, hf]
          simp
        · exact Or.inl e
      · exact Or.inr h
    | some ids =>
      by_cases he : (vector_erase_at ids (linear_index ids zone_id)).isEmpty = true
      · have hl : clear_reservation_loop zone_id (hfid :: rest) pending
            = clear_reservation_loop zone_id rest (umap_erase pending hfid) := by
          simp [clear_reservation_loop, hf, he]
        rw [hl]
        apply ih
        by_cases ho : o = hfid
        · right
          rw [umap_find_erase, if_pos ho]
          simp
        · rcases h with h | h
          · rcases List.mem_cons.mp h with e | e
            · exact absurd e ho
            · exact Or.inl e
          · right
            rw [umap_find_erase, if_neg ho]
            exact h
      · have hl : clear_reservation_loop zone_id (hfid :: rest) pending
            = clear_reservation_loop zone_id rest
                (umap_assign pending hfid (vector_erase_at ids (linear_index ids zone_id))) := by
          simp [clear_reservation_loop, hf, he]
        rw [hl]
        apply ih
        by_cases ho : o = hfid
        · right
          rw [umap_find_assign, if_pos ho, hf]
          intro e
          simp only [Option.map_some', Option.some.injEq] at e
          rw [e] at he
          exact he rfl
        · rcases h with h | h
          · rcases List.mem_cons.mp h with e | e
            · exact absurd e ho
            · exact Or.inl e
          · right
            rw [umap_find_assign, if_neg ho]
            exact h

theorem clear_reservation_effect_aux (s : State) (z : Int) (hfids : List Int)
    (h : umap_find s.reserved_zones z = some hfids) :
    ∀ b ∈ (clear_reservation s z none).civzones, b.id = z → b.active = true := by
  intro b hb hid
  rw [clear_reservation_civzones s z none hfids h (Or.inl rfl)] at hb
  obtain ⟨a, -, rfl⟩ := List.mem_map.mp hb
  by_cases ha : a.id = z
  · simp [ha]
  · simp only [ha, if_false] at hid

/-- C11 (as stated): in the state where zone 7 is held for occupant 1 and is
listed twice under occupant 1, zone 7 has an entry in `reserved_zones` and
occupant 1 is in its reservation set, yet after `clear_reservation(7)` the
list of occupant 1 still contains zone 7. -/
theorem clear_reservation_keeps_repeated_zone :
    umap_find sample_state_twice.reserved_zones 7 = some [1] ∧
      7 ∈ entries (clear_reservation sample_state_twice 7 none).pending_reassignment 1 := by
  decide

/-- C11 (amended): for every zone `z` that has an entry in `reserved_zones`,
in a state where no list of `pending_reassignment` names a zone twice, after
`clear_reservation(z)`: `reserved_zones` has no entry for `z`; for every
occupant `o` of the reservation set of `z`, the list of `o` does not contain
`z` and `o` has no entry with an empty list; every zone with id `z` is
active. -/
theorem clear_reservation_effect (s : State) (z : Int) (zone : Option Int) (hfids : List Int)
    (h : umap_find s.reserved_zones z = some hfids) (hn : PendingNodup s)
    (hz : zone = none ∨ zone = some z) :
    umap_find (clear_reservation s z zone).reserved_zones z = none ∧
    (∀ o ∈ hfids,
      z ∉ entries (clear_reservation s z zone).pending_reassignment o ∧
      umap_find (clear_reservation s z zone).pending_reassignment o ≠ some []) ∧
    (∀ b ∈ (clear_reservation s z zone).civzones, b.id = z → b.active = true) := by
  refine ⟨?_, ?_, ?_⟩
  · rw [clear_reservation_reserved_find, if_pos rfl]
  · intro o ho
    rw [(clear_reservation_tables s z zone).1, h]
    dsimp only
    constructor
    · intro hmem
      have := ((clear_reservation_loop_spec z hfids s.pending_reassignment hn).2 o z).mp hmem
      exact this.2 ⟨rfl, ho⟩
    · exact clear_reservation_loop_no_empty z hfids s.pending_reassignment o (Or.inl ho)
  · intro b hb hid
    rw [clear_reservation_civzones s z zone hfids h hz] at hb
    obtain ⟨a, -, rfl⟩ := List.mem_map.mp hb
    by_cases ha : a.id = z
    · simp [ha]
    · simp only [ha, if_false] at hid

/-- Clearing the reservation of zone 7 in the state with one reservation. -/
theorem clear_reservation_effect_witness :
    umap_find (clear_reservation sample_state 7 none).reserved_zones 7 = none ∧
    (∀ o ∈ [(1 : Int)],
      7 ∉ entries (clear_reservation sample_state 7 none).pending_reassignment o ∧
      umap_find (clear_reservation sample_state 7 none).pending_reassignment o ≠ some []) ∧
    (∀ b ∈ (clear_reservation sample_state 7 none).civzones, b.id = 7 → b.active = true) :=
  clear_reservation_effect sample_state 7 none [1] (by decide)
    (by
      intro o
      show (entries [(1, [7])] o).Nodup
      by_cases ho : o = 1 <;> simp [entries, umap_find, ho, eq_comm])
    (Or.inl rfl)

/-- C12: for a zone id `z` with no entry in `reserved_zones`,
`clear_reservation(z)` returns the state it was given: both tables and every
active flag are unchanged, and the function is total. For every state, a
second `clear_reservation(z)` changes nothing more than the first. -/
theorem clear_reservation_noop (s : State) (z : Int) (zone : Option Int)
    (h : umap_find s.reserved_zones z = none) :
    clear_reservation s z zone = s ∧
    ∀ (t : State) (z2 : Int) (zone1 zone2 : Option Int),
      clear_reservation (clear_reservation t z2 zone1) z2 zone2 = clear_reservation t z2 zone1 := by
  refine ⟨clear_reservation_absent s z zone h, fun t z2 zone1 zone2 => ?_⟩
  apply clear_reservation_absent
  rw [clear_reservation_reserved_find, if_pos rfl]

/-- Zone 8 is not reserved in the state with one reservation; clearing zone 7
twice is clearing it once. -/
theorem clear_reservation_noop_witness :
    clear_reservation sample_state 8 none = sample_state ∧
      clear_reservation (clear_reservation sample_state 7 none) 7 none
        = clear_reservation sample_state 7 none :=
  have h := clear_reservation_noop sample_state 8 none (by decide)
  ⟨h.1, h.2 sample_state 7 none none⟩

theorem filter_ne_erase (l : List Int) (z : Int) :
    (l.erase z).filter (fun x => decide (x ≠ z)) = l.filter (fun x => decide (x ≠ z)) := by
  induction l with
  | nil => rfl
  | cons a rest ih =>
    by_cases ha : a = z
    · subst ha
      simp
    · have hab : (a == z) = false := by simpa using ha
      rw [List.erase_cons, hab]
      simp only [Bool.false_eq_true, if_false, List.filter_cons, ih]

theorem clear_reservation_loop_filter (zone_id : Int) (hfids : List Int) :
    ∀ (pending : List (Int × List Int)) (o : Int),
      (entries (clear_reservation_loop zone_id hfids pending) o).filter (fun x => decide (x ≠ zone_id))
        = (entries pending o).filter (fun x => decide (x ≠ zone_id)) := by
  induction hfids with
  | nil => intro pending o; rfl
  | cons hfid rest ih =>
    intro pending o
    cases hf : umap_find pending hfid with
    | none =>
      have hl : clear_reservation_loop zone_id (hfid :: rest) pending
          = clear_reservation_loop zone_id rest pending := by
        simp [clear_reservation_loop, hf]
      rw [hl, ih]
    | some ids =>
      have hl : clear_reservation_loop zone_id (hfid :: rest) pending
          = clear_reservation_loop zone_id rest
              (if (vector_erase_at ids (linear_index ids zone_id)).isEmpty then umap_erase pending hfid
               else umap_assign pending hfid (vector_erase_at ids (linear_index ids zone_id))) := by
        simp only [clear_reservation_loop, hf]
        split_ifs <;> rfl
      rw [hl, ih, clear_reservation_step_entries zone_id hfid pending ids hf]
      by_cases ho : o = hfid
      · subst ho
        have hids : entries pending o = ids := by simp [entries, hf]
        rw [if_pos rfl, hids, filter_ne_erase]
      · rw [if_neg ho]

/-- C20: `clear_reservation(z)` touches only zone `z`. For every zone id
different from `z`, the entry of `reserved_zones` (presence and contents) and
the zone itself, its active flag included, are unchanged; for every occupant
the list of `pending_reassignment` keeps all its zone ids other than `z`, in
the same order, and gets no other. -/
theorem clear_reservation_frame (s : State) (z : Int) (zone : Option Int)
    (hz : zone = none ∨ zone = some z) :
    (∀ z2 : Int, z2 ≠ z →
      umap_find (clear_reservation s z zone).reserved_zones z2 = umap_find s.reserved_zones z2 ∧
      find_civzone (clear_reservation s z zone) z2 = find_civzone s z2) ∧
    (∀ o : Int,
      (entries (clear_reservation s z zone).pending_reassignment o).filter (fun x => decide (x ≠ z))
        = (entries s.pending_reassignment o).filter (fun x => decide (x ≠ z))) := by
  constructor
  · intro z2 hne
    constructor
    · rw [clear_reservation_reserved_find, if_neg hne]
    · cases hf : umap_find s.reserved_zones z with
      | none => rw [clear_reservation_absent s z zone hf]
      | some hfids =>
        unfold find_civzone
        rw [clear_reservation_civzones s z zone hfids hf hz]
        rw [find_map_same_id _ _ (by intro b; split_ifs <;> rfl)]
        cases hb : List.find? (fun b => decide (b.id = z2)) s.civzones with
        | none => rfl
        | some b =>
          have hid : b.id = z2 := by
            have := List.find?_some hb
            simpa using this
          have : ¬ b.id = z := by rw [hid]; exact hne
          simp [this]
  · intro o
    rw [(clear_reservation_tables s z zone).1]
    cases hf : umap_find s.reserved_zones z with
    | none => rfl
    | some hfids => exact clear_reservation_loop_filter z hfids s.pending_reassignment o

/-- Clearing zone 7, listed twice under occupant 1 next to zone 8: zone 8 keeps
its reservation and its flag, and the list of occupant 1 keeps zone 8. -/
theorem clear_reservation_frame_witness :
    (umap_find (clear_reservation
        { sample_state with pending_reassignment := [(1, [7, 8, 7])], reserved_zones := [(7, [1]), (8, [1])] }
        7 none).reserved_zones 8 = some [1]) ∧
    (entries (clear_reservation
        { sample_state with pending_reassignment := [(1, [7, 8, 7])], reserved_zones := [(7, [1]), (8, [1])] }
        7 none).pending_reassignment 1).filter (fun x => decide (x ≠ 7)) = [8] :=
  have h := clear_reservation_frame
    { sample_state with pending_reassignment := [(1, [7, 8, 7])], reserved_zones := [(7, [1]), (8, [1])] }
    7 none (Or.inl rfl)
  ⟨(h.1 8 (by decide)).1.trans (by decide), (h.2 1).trans (by decide)⟩

/-! ## Theorems: feature switches and feature reset -/

theorem clear_reservation_active_mono (s : State) (k z : Int)
    (h : ∀ b ∈ s.civzones, b.id = z → b.active = true) :
    ∀ b ∈ (clear_reservation s k none).civzones, b.id = z → b.active = true := by
  cases hf : umap_find s.reserved_zones k with
  | none =>
    rw [clear_reservation_absent s k none hf]
    exact h
  | some hfids =>
    rw [clear_reservation_civzones s k none hfids hf (Or.inl rfl)]
    intro b hb hid
    obtain ⟨a, ha, rfl⟩ := List.mem_map.mp hb
    by_cases hk : a.id = k
    · simp [hk]
    · simp only [hk, if_false] at hid ⊢
      exact h a ha hid

theorem clear_reservation_ids (s : State) (k : Int) :
    (clear_reservation s k none).civzones.map (fun b => b.id) = s.civzones.map (fun b => b.id) := by
  cases hf : umap_find s.reserved_zones k with
  | none => rw [clear_reservation_absent s k none hf]
  | some hfids =>
    rw [clear_reservation_civzones s k none hfids hf (Or.inl rfl), List.map_map]
    apply List.map_congr_left
    intro b _
    show (if b.id = k then { b with active := true } else b).id = b.id
    split_ifs <;> rfl

theorem clear_all_active_mono (keys : List Int) :
    ∀ (s : State) (z : Int), (∀ b ∈ s.civzones, b.id = z → b.active = true) →
      ∀ b ∈ (keys.foldl (fun s zone_id => clear_reservation s zone_id none) s).civzones,
        b.id = z → b.active = true := by
  induction keys with
  | nil => exact fun s z h => h
  | cons k rest ih =>
    intro s z h
    exact ih _ z (clear_reservation_active_mono s k z h)

theorem clear_all_ids (keys : List Int) :
    ∀ s : State,
      (keys.foldl (fun s zone_id => clear_reservation s zone_id none) s).civzones.map (fun b => b.id)
        = s.civzones.map (fun b => b.id) := by
  induction keys with
  | nil => exact fun s => rfl
  | cons k rest ih =>
    intro s
    exact (ih _).trans (clear_reservation_ids s k)

theorem clear_all_active (keys : List Int) :
    ∀ (s : State) (z : Int), z ∈ keys → umap_find s.reserved_zones z ≠ none →
      ∀ b ∈ (keys.foldl (fun s zone_id => clear_reservation s zone_id none) s).civzones,
        b.id = z → b.active = true := by
  induction keys with
  | nil => intro s z hz; simp at hz
  | cons k rest ih =>
    intro s z hz hr
    by_cases hk : z = k
    · subst hk
      cases hf : umap_find s.reserved_zones z with
      | none => exact absurd hf hr
      | some hfids =>
        exact clear_all_active_mono rest (clear_reservation s z none) z
          (clear_reservation_effect_aux s z hfids hf)
    · have hz2 : z ∈ rest := by
        rcases List.mem_cons.mp hz with e | e
        · exact absurd e hk
        · exact e
      apply ih _ z hz2
      rw [clear_reservation_reserved_find, if_neg hk]
      exact hr

theorem umap_find_mem_keys {V : Type} (m : List (Int × V)) (z : Int)
    (h : umap_find m z ≠ none) : z ∈ m.map Prod.fst := by
  induction m with
  | nil => exact absurd rfl h
  | cons e rest ih =>
    obtain ⟨a, v⟩ := e
    by_cases ha : a = z
    · simp [ha]
    · simp only [umap_find, ha, if_false] at h
      exact List.mem_cons_of_mem _ (ih h)

theorem resetFeatureState_track_missions_spec (s : State) :
    (preserve_rooms_resetFeatureState s "track-missions").1 = true ∧
    (preserve_rooms_resetFeatureState s "track-missions").2.reserved_zones = [] ∧
    (preserve_rooms_resetFeatureState s "track-missions").2.pending_reassignment = [] ∧
    (preserve_rooms_resetFeatureState s "track-missions").2.last_known_assignments_bedroom = [] ∧
    (preserve_rooms_resetFeatureState s "track-missions").2.last_known_assignments_office = [] ∧
    (preserve_rooms_resetFeatureState s "track-missions").2.last_known_assignments_dining = [] ∧
    (preserve_rooms_resetFeatureState s "track-missions").2.last_known_assignments_tomb = [] ∧
    (preserve_rooms_resetFeatureState s "track-missions").2.civzones.map (fun b => b.id)
      = s.civzones.map (fun b => b.id) ∧
    (∀ z : Int, umap_find s.reserved_zones z ≠ none →
      ∀ b ∈ (preserve_rooms_resetFeatureState s "track-missions").2.civzones,
        b.id = z → b.active = true) := by
  have hr : preserve_rooms_resetFeatureState s "track-missions" =
      (true, clear_track_missions_state
        ((s.reserved_zones.map Prod.fst).foldl (fun s zone_id => clear_reservation s zone_id none) s)) := by
    unfold preserve_rooms_resetFeatureState
    rw [if_pos rfl]
  rw [hr]
  refine ⟨rfl, rfl, rfl, rfl, rfl, rfl, rfl, ?_, ?_⟩
  · exact clear_all_ids _ s
  · intro z hz
    exact clear_all_active _ s z (umap_find_mem_keys _ z hz) hz

/-- C13: `resetFeatureState("track-missions")` returns true and, from any
state, leaves `reserved_zones`, `pending_reassignment` and the four snapshots
empty; the zones of the world are the same as before, and every zone whose id
had an entry in `reserved_zones` before the call is active. -/
theorem resetFeatureState_track_missions (s : State) :
    (preserve_rooms_resetFeatureState s "track-missions").1 = true ∧
    (preserve_rooms_resetFeatureState s "track-missions").2.reserved_zones = [] ∧
    (preserve_rooms_resetFeatureState s "track-missions").2.pending_reassignment = [] ∧
    (preserve_rooms_resetFeatureState s "track-missions").2.last_known_assignments_bedroom = [] ∧
    (preserve_rooms_resetFeatureState s "track-missions").2.last_known_assignments_office = [] ∧
    (preserve_rooms_resetFeatureState s "track-missions").2.last_known_assignments_dining = [] ∧
    (preserve_rooms_resetFeatureState s "track-missions").2.last_known_assignments_tomb = [] ∧
    (preserve_rooms_resetFeatureState s "track-missions").2.civzones.map (fun b => b.id)
      = s.civzones.map (fun b => b.id) ∧
    (∀ z : Int, umap_find s.reserved_zones z ≠ none →
      ∀ b ∈ (preserve_rooms_resetFeatureState s "track-missions").2.civzones,
        b.id = z → b.active = true) :=
  resetFeatureState_track_missions_spec s

/-- The reset in the state with one reservation: the tables are empty and
zone 7, which was reserved and inactive, is active. -/
theorem resetFeatureState_track_missions_witness :
    (preserve_rooms_resetFeatureState sample_state "track-missions").2.reserved_zones = [] ∧
    (preserve_rooms_resetFeatureState sample_state "track-missions").2.pending_reassignment = [] ∧
    (preserve_rooms_resetFeatureState sample_state "track-missions").2.last_known_assignments_bedroom
      = [] ∧
    (∀ b ∈ (preserve_rooms_resetFeatureState sample_state "track-missions").2.civzones,
      b.id = 7 → b.active = true) :=
  have h := resetFeatureState_track_missions sample_state
  ⟨h.2.1, h.2.2.1, h.2.2.2.1, h.2.2.2.2.2.2.2.2 7 (by decide)⟩

/-- C14 (as stated): in the state where zone 7 is held for occupant 1 and is
inactive, `setFeature(false, "track-missions")` leaves the reservation of
zone 7 in the table and zone 7 inactive. -/
theorem setFeature_disable_keeps_reservation :
    (preserve_rooms_setFeature sample_state false "track-missions").2.reserved_zones = [(7, [1])] ∧
      (find_civzone (preserve_rooms_setFeature sample_state false "track-missions").2 7).map
        (fun b => b.active) = some false := by
  decide

/-- C14 (amended): `setFeature(false, "track-missions")` returns true and only
records the feature as disabled: the reservation tables and the active flag of
every zone are unchanged. It is `resetFeatureState("track-missions")`, called
after it, that leaves the reservation table empty and makes every previously
reserved zone active. -/
theorem setFeature_disable_track_missions (s : State) :
    preserve_rooms_setFeature s false "track-missions"
      = (true, { s with config_track_missions := false }) ∧
    (preserve_rooms_resetFeatureState
      (preserve_rooms_setFeature s false "track-missions").2 "track-missions").2.reserved_zones = [] ∧
    (∀ z : Int, umap_find s.reserved_zones z ≠ none →
      ∀ b ∈ (preserve_rooms_resetFeatureState
          (preserve_rooms_setFeature s false "track-missions").2 "track-missions").2.civzones,
        b.id = z → b.active = true) := by
  have h1 : preserve_rooms_setFeature s false "track-missions"
      = (true, { s with config_track_missions := false }) := by
    unfold preserve_rooms_setFeature
    simp
  rw [h1]
  have h := resetFeatureState_track_missions_spec { s with config_track_missions := false }
  exact ⟨rfl, h.2.1, h.2.2.2.2.2.2.2.2⟩

/-- Disabling the feature in the state with one reservation, then resetting
it. -/
theorem setFeature_disable_track_missions_witness :
    (preserve_rooms_setFeature sample_state false "track-missions").2.reserved_zones
      = sample_state.reserved_zones ∧
    (preserve_rooms_setFeature sample_state false "track-missions").2.civzones
      = sample_state.civzones ∧
    (∀ b ∈ (preserve_rooms_resetFeatureState
        (preserve_rooms_setFeature sample_state false "track-missions").2 "track-missions").2.civzones,
      b.id = 7 → b.active = true) :=
  have h := setFeature_disable_track_missions sample_state
  ⟨by rw [h.1], by rw [h.1], h.2.2 7 (by decide)⟩

/-- C15: for a feature name other than "track-missions" and "track-roles",
`setFeature(enabled, name)` and `resetFeatureState(name)` return false and the
state they were given: the config flags, both tables, the snapshots,
`noble_zones` and `cycle_timestamp` are unchanged, and no cycle is run. -/
theorem unknown_feature (s : State) (enabled : Bool) (feature : String)
    (h1 : feature ≠ "track-missions") (h2 : feature ≠ "track-roles") :
    preserve_rooms_setFeature s enabled feature = (false, s) ∧
      preserve_rooms_resetFeatureState s feature = (false, s) := by
  unfold preserve_rooms_setFeature preserve_rooms_resetFeatureState
  rw [if_neg h1, if_neg h2, if_neg h1, if_neg h2]
  exact ⟨rfl, rfl⟩

/-- The feature name "track-nobles" in the state with one reservation. -/
theorem unknown_feature_witness :
    preserve_rooms_setFeature sample_state true "track-nobles" = (false, sample_state) ∧
      preserve_rooms_resetFeatureState sample_state "track-nobles" = (false, sample_state) :=
  unknown_feature sample_state true "track-nobles" (by decide) (by decide)

/-- C19: for every input string the constructed filter has material mask zero,
the mask of a cleared filter: no path of the constructor writes `mat_mask`
after `clear()`, whatever the first field of the serialization holds. -/
theorem ItemFilter.ctor_serialized_mat_mask (E : Env) (s : List Char) :
    (ItemFilter.ctor_serialized E s).mat_mask = 0 ∧
      (ItemFilter.ctor_serialized E s).mat_mask = ItemFilter.ctor.mat_mask := by
  have h : (ItemFilter.ctor_serialized E s).mat_mask = 0 := by
    unfold ItemFilter.ctor_serialized
    dsimp only
    split_ifs
    · rfl
    · rfl
    · rfl
    · show (ItemFilter.setMaxQuality E _ _).mat_mask = 0
      rw [(ItemFilter.setMaxQuality_fields E _ _).2.2.2.1,
        (ItemFilter.setMinQuality_fields E _ _).2.2.2.1]
      rfl
  exact ⟨h, h⟩

/-- The mask field is validated: a five-field string whose non-empty first
field does not parse gives the cleared filter. -/
theorem ItemFilter.ctor_serialized_mask_invalid (E : Env) (s : List Char)
    (mask field minq maxq dec : List Char)
    (hs : split_string s '/' = [mask, field, minq, maxq, dec]) (hne : mask ≠ [])
    (hp : (E.parseJobMaterialCategory 0 mask).1 = false) :
    ItemFilter.ctor_serialized E s = ItemFilter.ctor := by
  have hm : deserializeMaterialMask E mask ItemFilter.ctor.mat_mask = false := by
    unfold deserializeMaterialMask
    cases mask with
    | nil => exact absurd rfl hne
    | cons c cs =>
      have : ItemFilter.ctor.mat_mask = 0 := rfl
      rw [this, hp]
      rfl
  unfold ItemFilter.ctor_serialized
  rw [hs]
  simp only [List.length_cons, List.length_nil, List.getD_cons_zero, hm]
  simp

/-! ## Theorems: noble roles -/

theorem find_civzone_id (s : State) (zone_id : Int) (zone : building_civzonest)
    (h : find_civzone s zone_id = some zone) : zone.id = zone_id := by
  have := List.find?_some h
  simpa using this

theorem owner_of_setOwner_other (s : State) (zone : building_civzonest) (u : unit) (z : Int)
    (h : zone.id ≠ z) : owner_of (setOwner s zone u) z = owner_of s z := by
  unfold setOwner
  split_ifs
  · rfl
  · unfold owner_of find_civzone
    dsimp only
    rw [find_map_same_id _ _ (by intro b; split_ifs <;> rfl)]
    cases hb : List.find? (fun b => decide (b.id = z)) s.civzones with
    | none => rfl
    | some b =>
      have hid : b.id = z := by
        have := List.find?_some hb
        simpa using this
      have : ¬ b.id = zone.id := by rw [hid]; exact fun e => h e.symm
      simp [this]

theorem owner_of_setOwner (s : State) (zone_id : Int) (zone : building_civzonest) (u : unit)
    (h : find_civzone s zone_id = some zone) :
    owner_of (setOwner s zone u) zone_id = some u.id := by
  have hid := find_civzone_id s zone_id zone h
  unfold setOwner
  split_ifs with ho
  · unfold owner_of
    rw [h]
    exact ho
  · unfold owner_of
    unfold find_civzone at h ⊢
    dsimp only
    rw [find_map_same_id _ _ (by intro b; split_ifs <;> rfl), h]
    simp [hid]

theorem umap_items_from_keys {V : Type} (m : List (Int × V)) :
    ∀ seen : List Int,
      ((umap_items_from m seen).map Prod.fst).Nodup ∧
      ∀ k ∈ (umap_items_from m seen).map Prod.fst, k ∉ seen := by
  induction m with
  | nil => intro seen; simp [umap_items_from]
  | cons e rest ih =>
    intro seen
    by_cases he : e.1 ∈ seen
    · simp only [umap_items_from, he, if_true]
      exact ih seen
    · simp only [umap_items_from, he, if_false, List.map_cons, List.nodup_cons, List.mem_cons]
      obtain ⟨i1, i2⟩ := ih (e.1 :: seen)
      refine ⟨⟨fun hmem => (i2 _ hmem) (List.mem_cons_self _ _), i1⟩, ?_⟩
      intro k hk
      rcases hk with hk | hk
      · rw [hk]; exact he
      · exact fun hs => (i2 k hk) (List.mem_cons_of_mem _ hs)

theorem umap_items_from_mem {V : Type} (m : List (Int × V)) (k : Int) (v : V) :
    ∀ seen : List Int, umap_find m k = some v → k ∉ seen → (k, v) ∈ umap_items_from m seen := by
  induction m with
  | nil => intro seen h; simp [umap_find] at h
  | cons e rest ih =>
    obtain ⟨a, w⟩ := e
    intro seen h hk
    by_cases ha : a = k
    · subst ha
      simp only [umap_find, if_true, Option.some.injEq] at h
      subst h
      simp [umap_items_from, hk]
    · simp only [umap_find, ha, if_false] at h
      by_cases hs : a ∈ seen
      · simp only [umap_items_from, hs, if_true]
        exact ih seen h hk
      · simp only [umap_items_from, hs, if_false]
        refine List.mem_cons_of_mem _ (ih (a :: seen) h ?_)
        intro hmem
        rcases List.mem_cons.mp hmem with e | e
        · exact ha e.symm
        · exact hk e

theorem umap_items_from_find {V : Type} (m : List (Int × V)) (k : Int) (v : V) :
    ∀ seen : List Int, (k, v) ∈ umap_items_from m seen → umap_find m k = some v := by
  induction m with
  | nil => intro seen h; simp [umap_items_from] at h
  | cons e rest ih =>
    obtain ⟨a, w⟩ := e
    intro seen h
    by_cases hs : a ∈ seen
    · simp only [umap_items_from, hs, if_true] at h
      have hk : k ∉ seen :=
        (umap_items_from_keys rest seen).2 k (List.mem_map.mpr ⟨(k, v), h, rfl⟩)
      have ha : ¬ a = k := fun e => hk (e ▸ hs)
      simp only [umap_find, ha, if_false]
      exact ih seen h
    · simp only [umap_items_from, hs, if_false] at h
      rcases List.mem_cons.mp h with e | e
      · simp only [Prod.mk.injEq] at e
        simp [umap_find, e.1, e.2]
      · have hk : k ∉ a :: seen :=
          (umap_items_from_keys rest (a :: seen)).2 k (List.mem_map.mpr ⟨(k, v), e, rfl⟩)
        have ha : ¬ a = k := fun e2 => hk (e2 ▸ List.mem_cons_self _ _)
        simp only [umap_find, ha, if_false]
        exact ih (a :: seen) e

theorem linear_index_nonneg_iff {α : Type} [DecidableEq α] (l : List α) (z : α) :
    linear_index l z ≥ 0 ↔ z ∈ l := by
  constructor
  · intro h
    by_contra hz
    rw [linear_index_not_mem l z hz] at h
    omega
  · intro h
    exact (linear_index_mem l z h).1

theorem getUnitsByNobleRole_ids (s t : State) (code : String) (h : SameButOwners s t) :
    (getUnitsByNobleRole t code).map (fun u => u.id)
      = (getUnitsByNobleRole s code).map (fun u => u.id) := by
  obtain ⟨-, -, h3⟩ := h
  unfold getUnitsByNobleRole
  generalize s.units = l1 at h3
  generalize t.units = l2 at h3
  induction l2 generalizing l1 with
  | nil =>
    cases l1 with
    | nil => rfl
    | cons a r => simp at h3
  | cons b r2 ih =>
    cases l1 with
    | nil => simp at h3
    | cons a r1 =>
      simp only [List.map_cons, List.cons.injEq, Prod.mk.injEq] at h3
      obtain ⟨⟨e1, -, -, e4⟩, hr⟩ := h3
      simp only [List.filter_cons, e4]
      split_ifs
      · simp only [List.map_cons, e1, ih r1 hr]
      · exact ih r1 hr

theorem assign_nobles_found_iff (s : State) (zone : building_civzonest) (code : String)
    (owned : List Int) :
    assign_nobles_found s zone code owned = true ↔
      ∃ p ∈ owned, ∃ oz, find_civzone s p = some oz ∧ oz.type = zone.type ∧
        umap_find s.noble_zones oz.id = some code := by
  induction owned with
  | nil => simp [assign_nobles_found]
  | cons p rest ih =>
    have hn : ∀ oz : building_civzonest,
        is_noble_zone s oz.id code = true ↔ umap_find s.noble_zones oz.id = some code := by
      intro oz
      unfold is_noble_zone
      cases umap_find s.noble_zones oz.id with
      | none => simp
      | some c => simp
    cases hp : find_civzone s p with
    | none =>
      simp only [assign_nobles_found, hp, ih, List.mem_cons, exists_eq_or_imp]
      simp
    | some oz =>
      simp only [assign_nobles_found, hp, List.mem_cons, exists_eq_or_imp, Option.some.injEq,
        exists_eq_left']
      by_cases hc : oz.type = zone.type ∧ umap_find s.noble_zones oz.id = some code
      · have : (decide (oz.type = zone.type) && is_noble_zone s oz.id code) = true := by
          simp [hc.1, (hn oz).mpr hc.2]
        rw [this]
        simp only [if_true, true_iff]
        exact Or.inl hc
      · have : (decide (oz.type = zone.type) && is_noble_zone s oz.id code) = false := by
          by_contra hh
          simp only [Bool.not_eq_false, Bool.and_eq_true, decide_eq_true_eq] at hh
          exact hc ⟨hh.1, (hn oz).mp hh.2⟩
        simp only [this, Bool.false_eq_true, if_false, ih]
        constructor
        · exact fun h => Or.inr h
        · rintro (h | h)
          · exact absurd h hc
          · exact h

theorem owner_of_assign_nobles_zone_other (s : State) (k z : Int) (code : String) (h : k ≠ z) :
    owner_of (assign_nobles_zone s k code) z = owner_of s z := by
  rcases assign_nobles_zone_cases s k code with e | ⟨zone, u, hz, e⟩
  · rw [e]
  · rw [e]
    apply owner_of_setOwner_other
    rw [find_civzone_id s k zone hz]
    exact h

theorem owner_of_fold_other (items : List (Int × String)) (z : Int) :
    ∀ s : State, z ∉ items.map Prod.fst →
      owner_of (items.foldl (fun s e => assign_nobles_zone s e.1 e.2) s) z = owner_of s z := by
  induction items with
  | nil => exact fun s _ => rfl
  | cons e rest ih =>
    intro s h
    have h1 : e.1 ≠ z := fun e1 => h (by simp [e1])
    have h2 : z ∉ rest.map Prod.fst := fun e2 => h (by simp only [List.map_cons]; exact List.mem_cons_of_mem _ e2)
    exact (ih _ h2).trans (owner_of_assign_nobles_zone_other s e.1 z e.2 h1)

theorem assign_nobles_zone_skip (s : State) (zone_id : Int) (code : String) (uid : Int)
    (ho : owner_of s zone_id = some uid)
    (hu : uid ∈ (getUnitsByNobleRole s code).map (fun u => u.id)) :
    assign_nobles_zone s zone_id code = s := by
  unfold owner_of at ho
  unfold assign_nobles_zone
  cases hz : find_civzone s zone_id with
  | none => rfl
  | some zone =>
    rw [hz] at ho
    simp only [Option.some_bind] at ho
    have hmem : zone.assigned_unit ∈ (getUnitsByNobleRole s code).map (fun u => some u.id) := by
      rw [ho]
      obtain ⟨u, hu1, hu2⟩ := List.mem_map.mp hu
      exact List.mem_map.mpr ⟨u, hu1, by rw [hu2]⟩
    dsimp only
    rw [if_pos ((linear_index_nonneg_iff _ _).mpr hmem)]

theorem assign_nobles_fold_keeps (items : List (Int × String)) (z : Int) (code : String) (uid : Int) :
    ∀ s : State, (∀ e ∈ items, e.1 = z → e.2 = code) → owner_of s z = some uid →
      uid ∈ (getUnitsByNobleRole s code).map (fun u => u.id) →
      owner_of (items.foldl (fun s e => assign_nobles_zone s e.1 e.2) s) z = some uid ∧
      uid ∈ (getUnitsByNobleRole (items.foldl (fun s e => assign_nobles_zone s e.1 e.2) s) code).map
        (fun u => u.id) := by
  induction items with
  | nil => exact fun s _ ho hu => ⟨ho, hu⟩
  | cons e rest ih =>
    intro s hc ho hu
    have hrest : ∀ x ∈ rest, x.1 = z → x.2 = code := fun x hx => hc x (List.mem_cons_of_mem _ hx)
    by_cases he : e.1 = z
    · have hcode : e.2 = code := hc e (List.mem_cons_self _ _) he
      have hskip : assign_nobles_zone s e.1 e.2 = s := by
        rw [he, hcode]
        exact assign_nobles_zone_skip s z code uid ho hu
      simp only [List.foldl_cons, hskip]
      exact ih s hrest ho hu
    · simp only [List.foldl_cons]
      apply ih _ hrest
      · rw [owner_of_assign_nobles_zone_other s e.1 z e.2 he]
        exact ho
      · rw [getUnitsByNobleRole_ids s _ code (assign_nobles_zone_same s e.1 e.2)]
        exact hu

theorem assign_nobles_keeps (s : State) (z : Int) (code : String) (uid : Int)
    (hreg : umap_find s.noble_zones z = some code) (ho : owner_of s z = some uid)
    (hu : uid ∈ (getUnitsByNobleRole s code).map (fun u => u.id)) :
    owner_of (assign_nobles s) z = some uid ∧
      uid ∈ (getUnitsByNobleRole (assign_nobles s) code).map (fun u => u.id) := by
  apply assign_nobles_fold_keeps _ z code uid s _ ho hu
  intro e he hz
  have hfind := umap_items_from_find s.noble_zones e.1 e.2 [] he
  rw [hz, hreg] at hfind
  exact (Option.some.inj hfind).symm

theorem assign_nobles_noble_zones (s : State) : (assign_nobles s).noble_zones = s.noble_zones := by
  have h := congrArg State.noble_zones (assign_nobles_same s).1
  exact h

/-- C17: for a registered zone whose current owner is among the holders of its
role code, `assign_nobles` leaves the owner of the zone unchanged, and so does
a second run right after the first: the zone has the same owner both times. -/
theorem assign_nobles_idempotent (s : State) (zone_id : Int) (code : String)
    (zone : building_civzonest) (u : unit)
    (hreg : umap_find s.noble_zones zone_id = some code)
    (hz : find_civzone s zone_id = some zone)
    (hu : u ∈ getUnitsByNobleRole s code) (ho : zone.assigned_unit = some u.id) :
    owner_of s zone_id = some u.id ∧
    owner_of (assign_nobles s) zone_id = some u.id ∧
    owner_of (assign_nobles (assign_nobles s)) zone_id = some u.id := by
  have h0 : owner_of s zone_id = some u.id := by
    unfold owner_of
    rw [hz]
    exact ho
  have hmem : u.id ∈ (getUnitsByNobleRole s code).map (fun u => u.id) :=
    List.mem_map.mpr ⟨u, hu, rfl⟩
  obtain ⟨h1, h2⟩ := assign_nobles_keeps s zone_id code u.id hreg h0 hmem
  have hreg2 : umap_find (assign_nobles s).noble_zones zone_id = some code := by
    rw [assign_nobles_noble_zones]
    exact hreg
  exact ⟨h0, h1, (assign_nobles_keeps (assign_nobles s) zone_id code u.id hreg2 h1 h2).1⟩

/-- Office 9 is registered for the sheriff and owned by the sheriff, unit 4,
while the owner of the other registered zone changes. -/
theorem assign_nobles_idempotent_witness :
    owner_of sample_nobles 9 = some 4 ∧
    owner_of (assign_nobles sample_nobles) 9 = some 4 ∧
    owner_of (assign_nobles (assign_nobles sample_nobles)) 9 = some 4 :=
  assign_nobles_idempotent sample_nobles 9 "SHERIFF"
    { id := 9, active := true, type := 2, assigned_unit := some 4 }
    { id := 4, isCitizen := true, isResident := false, owned_buildings := [9],
      noble_roles := ["SHERIFF"] }
    (by decide) (by decide) (by decide) rfl

theorem assign_nobles_zone_absent (s : State) (zone_id : Int) (code : String)
    (h : find_civzone s zone_id = none) : assign_nobles_zone s zone_id code = s := by
  unfold assign_nobles_zone
  rw [h]

theorem assign_nobles_zone_choice (s : State) (zone_id : Int) (code : String)
    (zone : building_civzonest) (hz : find_civzone s zone_id = some zone)
    (hn : zone.assigned_unit ∉ (getUnitsByNobleRole s code).map (fun u => some u.id)) :
    assign_nobles_zone s zone_id code =
      match (getUnitsByNobleRole s code).find? (assign_nobles_accepts s zone code) with
      | none => s
      | some u => setOwner s zone u := by
  unfold assign_nobles_zone
  rw [hz]
  dsimp only
  have : ¬ linear_index ((getUnitsByNobleRole s code).map (fun u => some u.id)) zone.assigned_unit ≥ 0 :=
    fun h => hn ((linear_index_nonneg_iff _ _).mp h)
  rw [if_neg this, assign_nobles_units_eq]

theorem assign_nobles_accepts_iff (s : State) (zone : building_civzonest) (code : String) (u : unit) :
    assign_nobles_accepts s zone code u = true ↔
      (u.isCitizen = true ∨ u.isResident = true) ∧
      ¬ ∃ p ∈ u.owned_buildings, ∃ oz, find_civzone s p = some oz ∧ oz.type = zone.type ∧
        umap_find s.noble_zones oz.id = some code := by
  rw [← assign_nobles_found_iff]
  unfold assign_nobles_accepts
  simp

theorem assign_nobles_own_step (s : State) (zone_id : Int) (code : String)
    (h : umap_find s.noble_zones zone_id = some code) :
    ∃ pre post : List (Int × String),
      umap_items s.noble_zones = pre ++ (zone_id, code) :: post ∧
      owner_of (assign_nobles s) zone_id =
        owner_of (assign_nobles_zone
          (pre.foldl (fun s e => assign_nobles_zone s e.1 e.2) s) zone_id code) zone_id := by
  have hmem : (zone_id, code) ∈ umap_items s.noble_zones :=
    umap_items_from_mem s.noble_zones zone_id code [] h (by simp)
  obtain ⟨pre, post, hsplit⟩ := List.append_of_mem hmem
  refine ⟨pre, post, hsplit, ?_⟩
  have hnd := (umap_items_from_keys s.noble_zones []).1
  have hnd2 : ((pre ++ (zone_id, code) :: post).map Prod.fst).Nodup := by
    rw [← hsplit]
    exact hnd
  have hpost : zone_id ∉ post.map Prod.fst := by
    rw [List.map_append, List.map_cons, List.nodup_append] at hnd2
    exact (List.nodup_cons.mp hnd2.2.1).1
  unfold assign_nobles
  rw [hsplit, List.foldl_append, List.foldl_cons]
  exact owner_of_fold_other post zone_id _ hpost

/-- C16 (as stated): bedroom 7 is registered for the mayor and owned by unit 1,
who is not a mayor. The only mayor, unit 2, is a citizen and owns no zone
other than zone 7 itself, yet `assign_nobles` leaves zone 7 to unit 1: zone 7
is in the `owned_buildings` of unit 2, has the type of zone 7 and is registered
for the mayor, so unit 2 is passed over. -/
theorem assign_nobles_passes_over_co_owner :
    umap_find sample_nobles_spouse.noble_zones 7 = some "MAYOR" ∧
    owner_of sample_nobles_spouse 7 = some 1 ∧
    getUnitsByNobleRole sample_nobles_spouse "MAYOR" =
      [{ id := 2, isCitizen := true, isResident := false, owned_buildings := [7],
         noble_roles := ["MAYOR"] }] ∧
    owner_of (assign_nobles sample_nobles_spouse) 7 = some 1 := by
  decide

/-- C16 (amended): for a pair (zone id, role code) of `noble_zones`, read in
the state reached when the loop of `assign_nobles` comes to the pair: a zone id
that resolves to no zone leaves the state unchanged; when the zone exists and
its owner is not a holder of the role, the owner becomes the first unit, in
role-query order, that is a citizen or resident and has among its owned
buildings no zone, the zone itself included, of the same type that is
registered in `noble_zones` under the same role code; when no unit qualifies
the state is unchanged. The owner that `assign_nobles` leaves for a registered
zone is the one its own pair leaves. -/
theorem assign_nobles_zone_spec (s : State) (zone_id : Int) (code : String) :
    (find_civzone s zone_id = none → assign_nobles_zone s zone_id code = s) ∧
    (∀ zone : building_civzonest, find_civzone s zone_id = some zone →
      zone.assigned_unit ∉ (getUnitsByNobleRole s code).map (fun u => some u.id) →
      (∀ u : unit,
        (getUnitsByNobleRole s code).find? (assign_nobles_accepts s zone code) = some u →
        owner_of (assign_nobles_zone s zone_id code) zone_id = some u.id) ∧
      ((getUnitsByNobleRole s code).find? (assign_nobles_accepts s zone code) = none →
        assign_nobles_zone s zone_id code = s)) ∧
    (∀ (zone : building_civzonest) (u : unit),
      assign_nobles_accepts s zone code u = true ↔
        (u.isCitizen = true ∨ u.isResident = true) ∧
        ¬ ∃ p ∈ u.owned_buildings, ∃ oz, find_civzone s p = some oz ∧ oz.type = zone.type ∧
          umap_find s.noble_zones oz.id = some code) ∧
    (umap_find s.noble_zones zone_id = some code →
      ∃ pre post : List (Int × String),
        umap_items s.noble_zones = pre ++ (zone_id, code) :: post ∧
        owner_of (assign_nobles s) zone_id =
          owner_of (assign_nobles_zone
            (pre.foldl (fun s e => assign_nobles_zone s e.1 e.2) s) zone_id code) zone_id) := by
  refine ⟨assign_nobles_zone_absent s zone_id code, ?_,
    fun zone u => assign_nobles_accepts_iff s zone code u, assign_nobles_own_step s zone_id code⟩
  intro zone hz hn
  have hc := assign_nobles_zone_choice s zone_id code zone hz hn
  constructor
  · intro u hu
    rw [hc, hu]
    exact owner_of_setOwner s zone_id zone u hz
  · intro hnone
    rw [hc, hnone]

/-- In the state with two mayors, the pair of zone 7 passes over unit 2, who
has zone 7 among its owned buildings, and makes unit 3 the owner; the pair of
zone 5, which resolves to no zone, changes nothing. -/
theorem assign_nobles_zone_spec_witness :
    owner_of (assign_nobles_zone sample_nobles 7 "MAYOR") 7 = some 3 ∧
      assign_nobles_zone sample_nobles 5 "MAYOR" = sample_nobles :=
  ⟨((assign_nobles_zone_spec sample_nobles 7 "MAYOR").2.1
      { id := 7, active := true, type := 1, assigned_unit := some 1 } (by decide) (by decide)).1
      { id := 3, isCitizen := false, isResident := true, owned_buildings := [],
        noble_roles := ["MAYOR"] } (by decide),
    (assign_nobles_zone_spec sample_nobles 5 "MAYOR").1 (by decide)⟩

/-- C18 (evaluation): the bedroom snapshot records zone 7 as owned by occupant
1, who is not on the map; after `do_cycle` nothing is reserved, zone 7 is
still active, and the snapshot is empty. -/
theorem do_cycle_reserves_nothing :
    sample_left_map.last_known_assignments_bedroom = [(7, [1])] ∧
    sample_left_map.units = [] ∧
    (do_cycle sample_left_map).reserved_zones = [] ∧
    (do_cycle sample_left_map).pending_reassignment = [] ∧
    (find_civzone (do_cycle sample_left_map) 7).map (fun b => b.active) = some true ∧
    (do_cycle sample_left_map).last_known_assignments_bedroom = [] := by
  decide

end DFHack
